import Mathlib

/-!
Verification development for the smallcxx glob / matcher / traversal core
(`src/globstari.cpp`, `src/globstari-matcher.cpp`, `src/globstari-traverse.cpp`).

Paths, globs and regex sources are modelled as `List Char` (byte strings).
The PCRE2 library used by the code is modelled by a small regex AST
(`Rx`), a backtracking matcher (`ways`) whose preference order follows
PCRE2 (leftmost alternative first, greedy quantifiers), and a
recursive-descent reader (`parseTop` etc.) for the regex-source subset the
glob compiler emits.
-/

-- === Error model ========================================================

/-- Kinds of C++ exceptions thrown by the code. -/
inductive Err where
  | runtimeError (msg : List Char)
  | logicError (msg : List Char)
  | domainError (msg : List Char)
deriving DecidableEq, Repr

-- === Character predicates (C locale, ASCII) =============================

/-- Model of `isspace` in the C locale. -/
def isSpaceC (c : Char) : Bool :=
  c = ' ' ∨ c = '\t' ∨ c = '\n' ∨ c = '\x0b' ∨ c = '\x0c' ∨ c = '\r'

/-- Model of `isdigit`. -/
def isDigitC (c : Char) : Bool :=
  '0' ≤ c ∧ c ≤ '9'

/-- Model of `isalnum` in the C locale. -/
def isAlnumC (c : Char) : Bool :=
  ('0' ≤ c ∧ c ≤ '9') ∨ ('a' ≤ c ∧ c ≤ 'z') ∨ ('A' ≤ c ∧ c ≤ 'Z')

/-- Numeric value of a decimal digit character. -/
def digitVal (c : Char) : Nat := c.toNat - 48

/-- Value of a list of decimal digit characters, most significant first. -/
def digitsVal (l : List Char) : Nat :=
  l.foldl (fun v c => v * 10 + digitVal c) 0

/-- Model of `strtoll(s, nullptr, 10)`: skip leading whitespace, read an
optional sign and then a maximal run of decimal digits; an empty digit run
yields 0.  (Integers are modelled mathematically.) -/
def strtollModel (s : List Char) : Int :=
  match s.dropWhile isSpaceC with
  | [] => 0
  | c :: r =>
      if c = '-' then - (digitsVal (r.takeWhile isDigitC) : Int)
      else if c = '+' then (digitsVal (r.takeWhile isDigitC) : Int)
      else (digitsVal ((c :: r).takeWhile isDigitC) : Int)

-- === Regex AST (model of the PCRE2 subset the compiler emits) ===========

/-- One item of a character class. -/
inductive ClsItem where
  | one (c : Char)
  | range (a b : Char)
deriving DecidableEq, Repr

/-- Single-character regex atom. -/
inductive RAtom where
  | lit (c : Char)
  | anyc
  | cls (neg : Bool) (items : List ClsItem)
deriving DecidableEq, Repr

/-- Regex AST.  Quantifiers apply to single-character atoms only, which is
all the glob compiler ever emits. -/
inductive Rx where
  | fail
  | eps
  | atom (a : RAtom)
  | starA (a : RAtom)
  | plusA (a : RAtom)
  | optA (a : RAtom)
  | seq (r1 r2 : Rx)
  | alt (r1 r2 : Rx)
  | group (n : Nat) (r : Rx)
deriving DecidableEq, Repr

/-- Does character `c` satisfy class item `it`? -/
def clsItemMatch (it : ClsItem) (c : Char) : Bool :=
  match it with
  | .one a => c = a
  | .range a b => a ≤ c ∧ c ≤ b

/-- Does atom `a` match character `c`? -/
def atomMatch (a : RAtom) (c : Char) : Bool :=
  match a with
  | .lit d => c = d
  | .anyc => true
  | .cls neg items =>
      let m := items.any (fun it => clsItemMatch it c)
      if neg then ¬ m else m

/-- Captured groups: group number paired with the captured substring.
A group absent from the list is unset (`PCRE2_UNSET`). -/
abbrev Caps := List (Nat × List Char)

/-- All ways a regex can consume a prefix of `s`, in PCRE2 backtracking
preference order (leftmost alternative first, greedy quantifiers longest
first).  Each way is the remaining suffix plus the captures made. -/
def ways : Rx → List Char → List (List Char × Caps)
  | .fail, _ => []
  | .eps, s => [(s, [])]
  | .atom a, s =>
      match s with
      | [] => []
      | c :: r => if atomMatch a c then [(r, [])] else []
  | .starA a, s =>
      let run := s.takeWhile (atomMatch a)
      (List.range (run.length + 1)).map (fun j => (s.drop (run.length - j), []))
  | .plusA a, s =>
      let run := s.takeWhile (atomMatch a)
      (List.range run.length).map (fun j => (s.drop (run.length - j), []))
  | .optA a, s =>
      (match s with
       | [] => []
       | c :: r => if atomMatch a c then [(r, ([] : Caps))] else []) ++ [(s, [])]
  | .seq r1 r2, s =>
      (ways r1 s).flatMap (fun w1 =>
        (ways r2 w1.1).map (fun w2 => (w2.1, w1.2 ++ w2.2)))
  | .alt r1 r2, s => ways r1 s ++ ways r2 s
  | .group n r, s =>
      (ways r s).map (fun w => (w.1, (n, s.take (s.length - w.1.length)) :: w.2))

/-- Model of an anchored `pcre2_match` of `^r$` against the whole of `s`:
the first way (in preference order) that consumes all of `s`, if any,
together with its captures. -/
def fullMatch (r : Rx) (s : List Char) : Option Caps :=
  (((ways r s).filter (fun w => w.1 = [])).head?).map (fun w => w.2)

-- === Regex-source reader (model of pcre2_compile on the emitted subset) =

/-- Read one character-class item at the head of `s`. -/
def readClsItem (s : List Char) : Option (ClsItem × List Char) :=
  match s with
  | '\\' :: c :: r => some (.one c, r)
  | a :: '-' :: b :: r =>
      if a = '\\' then none
      else if b = ']' then some (.one a, '-' :: b :: r)
      else some (.range a b, r)
  | c :: r => some (.one c, r)
  | [] => none

/-- Read the body of a character class up to the closing `]`.
`first` is true while no item has been read yet (PCRE treats a leading
`]` as a literal). -/
def readClsBody (fuel : Nat) (s : List Char) (first : Bool) :
    Option (List ClsItem × List Char) :=
  match fuel with
  | 0 => none
  | fuel + 1 =>
    match s with
    | [] => none
    | ']' :: r =>
        if first then
          match readClsBody fuel r false with
          | some (items, rest) => some (.one ']' :: items, rest)
          | none => none
        else some ([], r)
    | _ =>
        match readClsItem s with
        | none => none
        | some (it, r) =>
            match readClsBody fuel r false with
            | some (items, rest) => some (it :: items, rest)
            | none => none

/-- Which production the regex reader is working on.  (The four mutually
recursive readers are combined into one fuel-indexed function so that the
definition reduces by iota in the kernel.) -/
inductive RMode where
  | alt
  | seqm
  | item
  | atom

/-- Combined recursive-descent reader; see `readAlt`, `readSeq`,
`readItem` and `readAtom` for the four productions. -/
def readR (fuel : Nat) (mode : RMode) (s : List Char) (n : Nat) :
    Option (Rx × List Char × Nat) :=
  match fuel with
  | 0 => none
  | fuel + 1 =>
    match mode with
    | .alt =>
      match readR fuel .seqm s n with
      | none => none
      | some (r1, s1, n1) =>
          match s1 with
          | '|' :: s2 =>
              match readR fuel .alt s2 n1 with
              | none => none
              | some (r2, s3, n2) => some (.alt r1 r2, s3, n2)
          | _ => some (r1, s1, n1)
    | .seqm =>
      match s with
      | [] => some (.eps, [], n)
      | '|' :: _ => some (.eps, s, n)
      | ')' :: _ => some (.eps, s, n)
      | '$' :: _ => some (.eps, s, n)
      | _ =>
          match readR fuel .item s n with
          | none => none
          | some (r1, s1, n1) =>
              match readR fuel .seqm s1 n1 with
              | none => none
              | some (r2, s2, n2) => some (.seq r1 r2, s2, n2)
    | .item =>
      match readR fuel .atom s n with
      | none => none
      | some (r, s1, n1) =>
          match s1 with
          | '*' :: s2 =>
              match r with
              | .atom a => some (.starA a, s2, n1)
              | _ => none
          | '+' :: s2 =>
              match r with
              | .atom a => some (.plusA a, s2, n1)
              | _ => none
          | '?' :: s2 =>
              match r with
              | .atom a => some (.optA a, s2, n1)
              | _ => none
          | _ => some (r, s1, n1)
    | .atom =>
      match s with
      | [] => none
      | '\\' :: c :: r =>
          if c = 'd' then
            some (.atom (.cls false [.range '0' '9']), r, n)
          else some (.atom (.lit c), r, n)
      | '\\' :: [] => none
      | '.' :: r => some (.atom .anyc, r, n)
      | '[' :: '^' :: r =>
          (match readClsBody fuel r true with
           | none => none
           | some (items, rest) => some (.atom (.cls true items), rest, n))
      | '[' :: r =>
          (match readClsBody fuel r true with
           | none => none
           | some (items, rest) => some (.atom (.cls false items), rest, n))
      | '(' :: '?' :: ':' :: r =>
          (match readR fuel .alt r n with
           | none => none
           | some (r1, s1, n1) =>
               match s1 with
               | ')' :: s2 => some (r1, s2, n1)
               | _ => none)
      | '(' :: '*' :: 'F' :: 'A' :: 'I' :: 'L' :: ')' :: r => some (.fail, r, n)
      | '(' :: r =>
          (match readR fuel .alt r (n + 1) with
           | none => none
           | some (r1, s1, n1) =>
               match s1 with
               | ')' :: s2 => some (.group (n + 1) r1, s2, n1)
               | _ => none)
      | c :: r => some (.atom (.lit c), r, n)

/-- Read an alternation `seq (| seq)*`.  `n` is the capture-group counter. -/
def readAlt (fuel : Nat) (s : List Char) (n : Nat) : Option (Rx × List Char × Nat) :=
  readR fuel .alt s n

/-- Read a whole anchored regex source `^...$`. -/
def readTop (s : List Char) : Option Rx :=
  match s with
  | '^' :: r =>
      match readAlt (4 * r.length + 16) r 0 with
      | none => none
      | some (rx, rest, _) =>
          match rest with
          | ['$'] => some rx
          | _ => none
  | _ => none

-- === Glob compiler (model of globToRegexSrc, globstari.cpp:71-343) ======

/-- Model of the `are_braces_paired` pre-pass: count `{` and `}` outside
backslash escapes; unpaired as soon as a `}` outruns the `{`s, or when the
final counts differ. -/
def bracesPairedGo : List Char → Nat → Nat → Bool
  | [], l, r => l == r
  | c :: rest, l, r =>
      if c = '\\' then
        match rest with
        | [] => l == r
        | _ :: rest2 => bracesPairedGo rest2 l r
      else if c = '}' then
        (if r + 1 > l then false else bracesPairedGo rest l (r + 1))
      else if c = '{' then bracesPairedGo rest (l + 1) r
      else bracesPairedGo rest l r

/-- Whether curly braces are paired in a glob. -/
def bracesPaired (g : List Char) : Bool := bracesPairedGo g 0 0

/-- Model of the slash scan inside `case '['`: walk from the `[` until the
terminating `]` or end of string, skipping backslash escapes, looking for
an unescaped `/`. -/
def hasSlashScan : List Char → Bool
  | [] => false
  | c :: rest =>
      if c = ']' then false
      else if c = '\\' then
        match rest with
        | [] => false
        | _ :: rest2 => hasSlashScan rest2
      else if c = '/' then true
      else hasSlashScan rest

/-- Model of the `{single}` scan in `case '{'`: starting just after the
`{`, skip backslash escapes; a `,` or the end of string means not-single;
otherwise return the offset of the closing `}`. -/
def singleScan : List Char → Nat → Option Nat
  | [], _ => none
  | c :: rest, k =>
      if c = '}' then some k
      else if c = '\\' then
        match rest with
        | [] => none
        | _ :: rest2 => singleScan rest2 (k + 2)
      else if c = ',' then none
      else singleScan rest (k + 1)

/-- Strip one optional `+` or `-`. -/
def dropSign : List Char → List Char
  | [] => []
  | c :: t => if c = '+' ∨ c = '-' then t else c :: t

/-- Model of matching `reNum` = `^\{[\+\-]?\d+\.\.[\+\-]?\d+\}$` against a
brace block. -/
def numRangeMatch (s : List Char) : Bool :=
  match s with
  | '{' :: r =>
      let r1 := dropSign r
      let ds := r1.takeWhile isDigitC
      let r2 := r1.drop ds.length
      decide (ds ≠ []) &&
        (match r2 with
         | '.' :: '.' :: r3 =>
             let r4 := dropSign r3
             let ds2 := r4.takeWhile isDigitC
             let r5 := r4.drop ds2.length
             decide (ds2 ≠ []) && decide (r5 = ['}'])
         | _ => false)
  | _ => false

/-- Model of `strchr` from index `i`: first index `j ≥ i` whose character
is `ch`. -/
def strchrFrom (fuel : Nat) (g : List Char) (i : Nat) (ch : Char) : Option Nat :=
  match fuel with
  | 0 => none
  | fuel + 1 =>
      match g.get? i with
      | none => none
      | some c => if c = ch then some i else strchrFrom fuel g (i + 1) ch

/-- Model of `strstr` from index `i`: first index `j ≥ i` where `pat`
begins. -/
def strstrFrom (fuel : Nat) (g : List Char) (i : Nat) (pat : List Char) : Option Nat :=
  match fuel with
  | 0 => none
  | fuel + 1 =>
      if pat.isPrefixOf (g.drop i) then some i
      else if g.length ≤ i then none
      else strstrFrom fuel g (i + 1) pat

/-- The characters `([\+\-]?\d+)` emitted for a numeric range. -/
def numRangeEmit : List Char :=
  ['(', '[', '\\', '+', '\\', '-', ']', '?', '\\', 'd', '+', ')']

/-- The characters `(\/|\/.*\/)` emitted for `/**/`. -/
def slashStarEmit : List Char :=
  ['(', '\\', '/', '|', '\\', '/', '.', '*', '\\', '/', ')']

/-- Main loop of `globToRegexSrc` (globstari.cpp:128-341), one iteration
per index.  `toBk` is the `toBackslash` set of indices; `inBr` is
`is_in_bracket`; `lvl` is `brace_level`; `paired` is `are_braces_paired`.
Appends regex-source characters to `src` and numeric ranges to `ranges`. -/
def g2rGo (g : List Char) (fuel : Nat) (i : Nat) (inBr : Bool) (lvl : Int)
    (paired : Bool) (toBk : List Nat) (src : List Char)
    (ranges : List (Int × Int)) : List Char × List (Int × Int) :=
  match fuel with
  | 0 => (src, ranges)
  | fuel + 1 =>
    match g.get? i with
    | none => (src, ranges)
    | some c =>
      if i ∈ toBk then
        g2rGo g fuel (i + 1) inBr lvl paired toBk (src ++ ['\\', c]) ranges
      else if c = '\\' then
        match g.get? (i + 1) with
        | some c2 => g2rGo g fuel (i + 2) inBr lvl paired toBk (src ++ ['\\', c2]) ranges
        | none => g2rGo g fuel (i + 1) inBr lvl paired toBk (src ++ ['\\', '\\']) ranges
      else if c = '?' then
        g2rGo g fuel (i + 1) inBr lvl paired toBk (src ++ ['[', '^', '/', ']']) ranges
      else if c = '*' then
        if g.get? (i + 1) = some '*' then
          g2rGo g fuel (i + 2) inBr lvl paired toBk (src ++ ['.', '*']) ranges
        else
          g2rGo g fuel (i + 1) inBr lvl paired toBk
            (src ++ ['[', '^', '\\', '/', ']', '*']) ranges
      else if c = '[' then
        if inBr then
          g2rGo g fuel (i + 1) inBr lvl paired toBk (src ++ ['\\', '[']) ranges
        else if hasSlashScan (g.drop i) then
          match strchrFrom (g.length + 1) g i ']' with
          | some rb =>
              g2rGo g fuel (rb + 1) inBr lvl paired toBk
                (src ++ ['\\'] ++ (g.drop i).take (rb - i) ++ ['\\', ']']) ranges
          | none => (src ++ ['\\'] ++ g.drop i, ranges)
        else if g.get? (i + 1) = some '!' then
          g2rGo g fuel (i + 2) true lvl paired toBk (src ++ ['[', '^']) ranges
        else
          g2rGo g fuel (i + 1) true lvl paired toBk (src ++ ['[']) ranges
      else if c = ']' then
        g2rGo g fuel (i + 1) false lvl paired toBk (src ++ [']']) ranges
      else if c = '-' then
        if inBr then
          g2rGo g fuel (i + 1) inBr lvl paired toBk (src ++ ['-']) ranges
        else
          g2rGo g fuel (i + 1) inBr lvl paired toBk (src ++ ['\\', '-']) ranges
      else if c = '{' then
        if ¬ paired then
          g2rGo g fuel (i + 1) inBr lvl paired toBk (src ++ ['\\', '{']) ranges
        else
          match singleScan (g.drop (i + 1)) 0 with
          | none =>
              g2rGo g fuel (i + 1) inBr (lvl + 1) paired toBk
                (src ++ ['(', '?', ':']) ranges
          | some k =>
              if numRangeMatch ((g.drop i).take (k + 2)) then
                let first := strtollModel (g.drop (i + 1))
                let second :=
                  match strstrFrom (g.length + 1) g i ['.', '.'] with
                  | some dd => strtollModel (g.drop (dd + 2))
                  | none => 0
                g2rGo g fuel (i + k + 2) inBr lvl paired toBk
                  (src ++ numRangeEmit) (ranges ++ [(first, second)])
              else
                g2rGo g fuel (i + 1) inBr lvl paired ((i + 1 + k) :: toBk)
                  (src ++ ['\\', '{']) ranges
      else if c = '}' then
        if ¬ paired then
          g2rGo g fuel (i + 1) inBr lvl paired toBk (src ++ ['\\', '}']) ranges
        else
          g2rGo g fuel (i + 1) inBr (lvl - 1) paired toBk (src ++ [')']) ranges
      else if c = ',' then
        if lvl > 0 then
          g2rGo g fuel (i + 1) inBr lvl paired toBk (src ++ ['|']) ranges
        else
          g2rGo g fuel (i + 1) inBr lvl paired toBk (src ++ ['\\', ',']) ranges
      else if c = '/' then
        if (g.drop i).take 4 = ['/', '*', '*', '/'] then
          g2rGo g fuel (i + 4) inBr lvl paired toBk (src ++ slashStarEmit) ranges
        else
          g2rGo g fuel (i + 1) inBr lvl paired toBk (src ++ ['\\', '/']) ranges
      else
        if ¬ isAlnumC c then
          g2rGo g fuel (i + 1) inBr lvl paired toBk (src ++ ['\\', c]) ranges
        else
          g2rGo g fuel (i + 1) inBr lvl paired toBk (src ++ [c]) ranges

/-- Model of `globToRegexSrc(glob, src, ranges)`: append the regex source
for `glob` to `src` and its numeric ranges to `ranges`. -/
def globToRegexSrc (glob : List Char) (src : List Char)
    (ranges : List (Int × Int)) : List Char × List (Int × Int) :=
  g2rGo glob (glob.length + 1) 0 false 0 (bracesPaired glob) [] src ranges

-- === GlobSet (globstari.cpp:44-465) =====================================

/-- Polarity of globs: include or exclude. -/
inductive Polarity where
  | Include
  | Exclude
deriving DecidableEq, Repr

/-- The state of a path w.r.t. a Matcher. -/
inductive PathCheckResult where
  | Included
  | Excluded
  | Unknown
deriving DecidableEq, Repr

/-- A set of globs.  `globs` models the `unordered_set` `globs_` as a list
in insertion order (`addGlob` deduplicates); `ranges` is `ranges_`;
`compiled` is the compiled regex (`nullptr` before `finalize`). -/
structure GlobSet where
  globs : List (List Char)
  ranges : List (Int × Int)
  compiled : Option Rx
deriving DecidableEq, Repr

/-- Model of the `GlobSet` default constructor. -/
def emptyGlobSet : GlobSet := ⟨[], [], none⟩

/-- Model of `GlobSet::finalized()`. -/
def GlobSet.finalized (gs : GlobSet) : Bool := gs.compiled.isSome

/-- Model of `GlobSet::addGlob`: an empty glob throws; otherwise insert
into the set. -/
def GlobSet.addGlob (gs : GlobSet) (glob : List Char) : Except Err GlobSet :=
  if glob = [] then .error (.runtimeError "Cannot add an empty glob".toList)
  else if glob ∈ gs.globs then .ok gs
  else .ok { gs with globs := gs.globs ++ [glob] }

/-- The per-glob part of `GlobSet::finalize`: wrap each glob's fragment in
`(?:...)`, separated by `|`, appending to `src` and `ranges`. -/
def buildGlobSrc : List (List Char) → Bool → List Char → List (Int × Int) →
    List Char × List (Int × Int)
  | [], _, src, ranges => (src, ranges)
  | g :: rest, first, src, ranges =>
      let src1 := if first then src else src ++ ['|']
      let sr := globToRegexSrc g (src1 ++ ['(', '?', ':']) ranges
      buildGlobSrc rest false (sr.1 ++ [')']) sr.2

/-- Model of `GlobSet::finalize` (globstari.cpp:346-387): assemble
`^(?:...)$` (or `^(?:(*FAIL))$` when empty) and compile it; a compile
failure throws. -/
def GlobSet.finalize (gs : GlobSet) : Except Err GlobSet :=
  let src0 :=
    ['^', '(', '?', ':'] ++
      (if gs.globs = [] then ['(', '*', 'F', 'A', 'I', 'L', ')'] else [])
  let sr := buildGlobSrc gs.globs true src0 gs.ranges
  let src := sr.1 ++ [')', '$']
  match readTop src with
  | none => .error (.runtimeError "Could not compile regex".toList)
  | some rx => .ok { gs with ranges := sr.2, compiled := some rx }

/-- The numeric-range loop of `GlobSet::contains` (globstari.cpp:427-461):
check capture group `i` against the `i`-th range; an unset group is
skipped; a captured string starting with `0` is a non-match; a zero-length
capture throws; the value parsed by `strtoll` must lie in the range. -/
def rangeCheckLoop : List (Int × Int) → Nat → Caps → Except Err Bool
  | [], _, _ => .ok true
  | (lo, hi) :: rest, i, caps =>
      match caps.lookup i with
      | none => rangeCheckLoop rest (i + 1) caps
      | some sub =>
          if sub.head? = some '0' then .ok false
          else if sub.length = 0 then
            .error (.runtimeError "Zero length substring match".toList)
          else
            let num := strtollModel sub
            if num < lo ∨ num > hi then .ok false
            else rangeCheckLoop rest (i + 1) caps

/-- Model of `GlobSet::contains` (globstari.cpp:391-465): requires a
finalized set; run the regex; no match means false; a zero-length whole
match means false; then every numeric range must pass. -/
def GlobSet.contains (gs : GlobSet) (path : List Char) : Except Err Bool :=
  match gs.compiled with
  | none => .error (.logicError "Glob set was not finalized".toList)
  | some rx =>
      match fullMatch rx path with
      | none => .ok false
      | some caps =>
          if path.length = 0 then .ok false
          else rangeCheckLoop gs.ranges 1 caps

-- === Matcher (globstari-matcher.cpp) ====================================

/-- Characters special in globs (`detail::ec_special_chars`). -/
def ecSpecialChars : List Char := ['?', '[', ']', '\\', '*', '-', '{', '}', ',']

/-- A matcher: ordered `(GlobSet, Polarity)` layers plus an optional
delegate consulted when no layer decides.  The `shared_ptr` delegate
chain of the C++ is flattened into `delegateChain`: the layer lists of
the delegate, of the delegate's delegate, and so on. -/
structure Matcher where
  globsets : List (GlobSet × Polarity)
  delegateChain : List (List (GlobSet × Polarity))
deriving DecidableEq

/-- The delegate of a matcher, reconstituted from the chain. -/
def Matcher.delegate (m : Matcher) : Option Matcher :=
  match m.delegateChain with
  | [] => none
  | g :: rest => some ⟨g, rest⟩

/-- The empty matcher (default constructor, no delegate). -/
def emptyMatcher : Matcher := ⟨[], []⟩

/-- Model of `Matcher(const std::shared_ptr<Matcher>& delegate)`:
a fresh matcher whose delegate is `parent`. -/
def matcherWithDelegate (parent : Matcher) : Matcher :=
  ⟨[], parent.globsets :: parent.delegateChain⟩

/-- Whether a layer list is ready: empty, or its last layer finalized. -/
def readyL (gs : List (GlobSet × Polarity)) : Bool :=
  match gs.getLast? with
  | none => true
  | some sp => sp.1.finalized

/-- Model of `Matcher::ready()`: no layers, or the last layer finalized. -/
def Matcher.ready (m : Matcher) : Bool :=
  readyL m.globsets

/-- Model of `Matcher::addGlob(glob)` (globstari-matcher.cpp:54-77):
an empty glob throws; a leading `!` selects Exclude polarity and is
stripped; a polarity change finalizes the back layer and starts a new one;
the (possibly stripped) glob is added to the back layer's GlobSet. -/
def Matcher.addGlob (m : Matcher) (glob : List Char) : Except Err Matcher :=
  if glob = [] then .error (.runtimeError "Cannot add an empty glob".toList)
  else
    let polarity := if glob.head? = some '!' then Polarity.Exclude else Polarity.Include
    let layersR : Except Err (List (GlobSet × Polarity)) :=
      match m.globsets.getLast? with
      | none => .ok [(emptyGlobSet, polarity)]
      | some lastSp =>
          if lastSp.2 ≠ polarity then
            match lastSp.1.finalize with
            | .error e => .error e
            | .ok fin =>
                .ok (m.globsets.dropLast ++ [(fin, lastSp.2), (emptyGlobSet, polarity)])
          else .ok m.globsets
    match layersR with
    | .error e => .error e
    | .ok gs1 =>
        let stripped := if glob.head? = some '!' then glob.tail else glob
        match gs1.getLast? with
        | none => .error (.logicError [])
        | some lastSp =>
            match lastSp.1.addGlob stripped with
            | .error e => .error e
            | .ok newSet =>
                .ok { m with globsets := gs1.dropLast ++ [(newSet, lastSp.2)] }

/-- Escaping of EditorConfig-special characters in the directory part of
an anchored glob (the `find_first_of` loop of globstari-matcher.cpp:106-118):
insert a backslash before each special character. -/
def escapeEc (s : List Char) : List Char :=
  s.flatMap (fun c => if c ∈ ecSpecialChars then ['\\', c] else [c])

/-- The `fullGlob` computed by `Matcher::addGlob(glob, path)`
(globstari-matcher.cpp:82-140): escape the anchor path without its
trailing slash; append `**/` when the glob has no `/`, or `/` when it has
one but does not start with one; re-attach a leading `!`. -/
def anchoredGlob (glob path : List Char) : List Char :=
  let pathNoSlash := path.dropLast
  let polarity := if glob.head? = some '!' then Polarity.Exclude else Polarity.Include
  let fullGlob0 := escapeEc pathNoSlash
  let fullGlob1 :=
    if ¬ glob.contains '/' then fullGlob0 ++ ['*', '*', '/']
    else if glob.head? ≠ some '/' then fullGlob0 ++ ['/']
    else fullGlob0
  if polarity = .Include then fullGlob1 ++ glob
  else '!' :: (fullGlob1 ++ glob.tail)

/-- Model of `Matcher::addGlob(glob, path)`: the anchor path must be
non-empty and end with `/`; then add the anchored glob. -/
def Matcher.addGlobAt (m : Matcher) (glob path : List Char) : Except Err Matcher :=
  if path = [] ∨ path.getLast? ≠ some '/' then
    .error (.domainError "path must be nonempty and end with /".toList)
  else m.addGlob (anchoredGlob glob path)

/-- Model of `Matcher::addGlobs(globs, path)`. -/
def Matcher.addGlobsAt (m : Matcher) (globs : List (List Char)) (path : List Char) :
    Except Err Matcher :=
  match globs with
  | [] => .ok m
  | g :: rest =>
      match m.addGlobAt g path with
      | .error e => .error e
      | .ok m1 => m1.addGlobsAt rest path

/-- Model of `Matcher::finalize()`: finalize the back layer, if any. -/
def Matcher.finalize (m : Matcher) : Except Err Matcher :=
  match m.globsets.getLast? with
  | none => .ok m
  | some lastSp =>
      match lastSp.1.finalize with
      | .error e => .error e
      | .ok fin => .ok { m with globsets := m.globsets.dropLast ++ [(fin, lastSp.2)] }

/-- The back-to-front layer loop of `Matcher::check`
(globstari-matcher.cpp:182-187), taking the layers already reversed; when
no layer decides, the result is `delres` (delegate or Unknown). -/
def Matcher.checkGo (p : List Char) (delres : Except Err PathCheckResult) :
    List (GlobSet × Polarity) → Except Err PathCheckResult
  | [] => delres
  | sp :: rest =>
      match sp.1.contains p with
      | .error e => .error e
      | .ok true =>
          .ok (if sp.2 = .Include then .Included else .Excluded)
      | .ok false => Matcher.checkGo p delres rest

/-- Body of `Matcher::check` (globstari-matcher.cpp:164-190), recursing
along the flattened delegate chain: not-ready throws; the empty path is
Unknown; a relative path throws; otherwise scan the layers back to front,
and fall back to the delegate (or Unknown). -/
def checkCore (p : List Char) : List (List (GlobSet × Polarity)) →
    List (GlobSet × Polarity) → Except Err PathCheckResult
  | chain, gs =>
      if ¬ readyL gs then
        .error (.logicError "Call to check() when not ready".toList)
      else if p = [] then .ok .Unknown
      else if p.head? ≠ some '/' then
        .error (.domainError "path must be absolute".toList)
      else
        Matcher.checkGo p
          (match chain with
           | [] => .ok .Unknown
           | g :: rest => checkCore p rest g)
          gs.reverse

/-- Model of `Matcher::check`. -/
def Matcher.check (m : Matcher) (p : List Char) : Except Err PathCheckResult :=
  checkCore p m.delegateChain m.globsets

/-- Model of `Matcher::contains` (globstari-matcher.cpp:158-162). -/
def Matcher.containsE (m : Matcher) (p : List Char) : Except Err Bool :=
  match m.check p with
  | .error e => .error e
  | .ok r => .ok (r = .Included)

-- === Traversal (globstari-traverse.cpp) =================================

/-- Abstract type of an entry (`EntryType`). -/
inductive EntryType where
  | File
  | Dir
deriving DecidableEq, Repr

/-- A single entry found in a directory (`Entry`). -/
structure Entry where
  ty : EntryType
  canonPath : List Char
  depth : Int
deriving DecidableEq, Repr

/-- Status values a ProcessEntry callback can return
(`IProcessEntry::Status`). -/
inductive PStatus where
  | Continue
  | Skip
  | Stop
deriving DecidableEq, Repr

/-- The abstract file tree (`IFileTree`): fallible directory enumeration,
file reading and canonicalization, plus the ignore-file candidate list. -/
structure FileTree where
  readDir : List Char → Except Err (List Entry)
  readFile : List Char → Except Err (List Char)
  canonicalize : List Char → Except Err (List Char)
  ignoresForDir : List Char → List (List Char)

/-- An entry and its inherited ignore matcher (`WorkItem`). -/
structure WorkItem where
  entry : Entry
  ignores : Matcher
deriving DecidableEq

/-- How a worker run ended: queue exhausted, `StopTraversal` raised by a
`Stop` callback result, a C++ exception (other than `StopTraversal`)
propagating out, or model fuel exhausted. -/
inductive Outcome where
  | done
  | stopped
  | err (e : Err)
  | fuelOut
deriving DecidableEq, Repr

/-- Fuelled worker for `getlines`. -/
def getlinesGo (fuel : Nat) (s : List Char) : List (List Char) :=
  match fuel with
  | 0 => []
  | fuel + 1 =>
      match s with
      | [] => []
      | _ =>
          let line := s.takeWhile (· ≠ '\n')
          match s.drop line.length with
          | [] => [line]
          | _ :: rest => line :: getlinesGo fuel rest

/-- Model of `std::getline` over an `istringstream`: split on newlines;
a trailing newline does not produce an extra empty line. -/
def getlines (s : List Char) : List (List Char) :=
  getlinesGo (s.length + 1) s

/-- Model of `smallcxx::trim` (string.cpp): strip leading and trailing
whitespace. -/
def trim (s : List Char) : List Char :=
  ((s.dropWhile isSpaceC).reverse.dropWhile isSpaceC).reverse

/-- The unescaped-`#` scan of `Traverser::parseContentsInto`
(globstari-traverse.cpp:329-334): the first index `idx ≥ 1` with
`pattern[idx] = '#'` and `pattern[idx-1] ≠ '\\'`. -/
def findUnescapedHash (fuel : Nat) (pattern : List Char) (idx : Nat) : Option Nat :=
  match fuel with
  | 0 => none
  | fuel + 1 =>
      match pattern.get? idx with
      | none => none
      | some c =>
          if c = '#' ∧ pattern.get? (idx - 1) ≠ some '\\' then some idx
          else findUnescapedHash fuel pattern (idx + 1)

/-- The per-line loop of `Traverser::parseContentsInto`
(globstari-traverse.cpp:315-338): for each line, trim; skip blank lines
and `#` comments; truncate at an unescaped interior `#`; add the rest as
a glob anchored at `relativeTo`. -/
def parseLinesInto : List (List Char) → Matcher → List Char → Except Err Matcher
  | [], m, _ => .ok m
  | line :: rest, m, relativeTo =>
      let pattern := trim line
      if pattern = [] ∨ pattern.head? = some '#' then parseLinesInto rest m relativeTo
      else
        let pattern1 :=
          match findUnescapedHash (pattern.length + 1) pattern 1 with
          | some idx => trim (pattern.take idx)
          | none => pattern
        match m.addGlobAt pattern1 relativeTo with
        | .error e => .error e
        | .ok m1 => parseLinesInto rest m1 relativeTo

/-- Model of `Traverser::parseContentsInto`. -/
def parseContentsInto (contents : List Char) (m : Matcher) (relativeTo : List Char) :
    Except Err Matcher :=
  parseLinesInto (getlines contents) m relativeTo

/-- The per-candidate loop of `Traverser::loadIgnoreFiles`
(globstari-traverse.cpp:271-312): for each candidate path, resolve it
(absolute candidates verbatim; relative ones appended to `relativeTo`
after an extra `/`, then canonicalized); read failures are swallowed;
parse what was read into the matcher. -/
def loadIgnoreGo (ft : FileTree) (relativeTo : List Char) :
    List (List Char) → Matcher → Except Err Matcher
  | [], mm => .ok mm
  | toLoad :: rest, mm =>
      let canonRes :=
        if toLoad ≠ [] ∧ toLoad.head? = some '/' then Except.ok toLoad
        else ft.canonicalize (relativeTo ++ ['/'] ++ toLoad)
      match canonRes with
      | .error e => .error e
      | .ok canonPath =>
          if canonPath = [] then loadIgnoreGo ft relativeTo rest mm
          else
            match ft.readFile canonPath with
            | .error _ => loadIgnoreGo ft relativeTo rest mm
            | .ok contents =>
                match parseContentsInto contents mm relativeTo with
                | .error e => .error e
                | .ok mm1 => loadIgnoreGo ft relativeTo rest mm1

/-- Model of `Traverser::loadIgnoreFiles`: start a fresh matcher
delegating to the parent ignores, load every candidate, then finalize. -/
def loadIgnoreFiles (ft : FileTree) (relativeTo : List Char)
    (loadFrom : List (List Char)) (parentIgnores : Matcher) : Except Err Matcher :=
  match loadIgnoreGo ft relativeTo loadFrom (matcherWithDelegate parentIgnores) with
  | .error e => .error e
  | .ok mm => mm.finalize

/-- Model of `Traverser::loadDir` (globstari-traverse.cpp:254-268): load
the directory's ignore files on top of the inherited ones, then read its
children, setting each child's depth, and pair them with the new ignores. -/
def loadDir (ft : FileTree) (entry : Entry) (parentIgnores : Matcher) :
    Except Err (List WorkItem) :=
  match loadIgnoreFiles ft (entry.canonPath ++ ['/'])
      (ft.ignoresForDir entry.canonPath) parentIgnores with
  | .error e => .error e
  | .ok ignores =>
      match ft.readDir entry.canonPath with
      | .error e => .error e
      | .ok newEntries =>
          .ok (newEntries.map
            (fun ne => ⟨{ ne with depth := entry.depth + 1 }, ignores⟩))

/-- The fixed inputs of a traversal. -/
structure TravCtx where
  ft : FileTree
  pe : Entry → PStatus
  needle : Matcher
  maxDepth : Int

/-- Model of `Traverser::worker` (globstari-traverse.cpp:166-252).
Returns the list of entries passed to the ProcessEntry callback, in call
order, together with how the run ended.  `seen` is the seen-set of
canonical paths.  One unit of fuel is one loop iteration. -/
def worker (cx : TravCtx) : Nat → List WorkItem → List (List Char) →
    List Entry × Outcome
  | 0, _, _ => ([], .fuelOut)
  | _ + 1, [], _ => ([], .done)
  | fuel + 1, item :: rest, seen =>
      if item.entry.canonPath ∈ seen then worker cx fuel rest seen
      else
        if cx.maxDepth > 0 ∧ item.entry.depth > cx.maxDepth then
          worker cx fuel rest (item.entry.canonPath :: seen)
        else
          match item.ignores.containsE item.entry.canonPath with
          | .error e => ([], .err e)
          | .ok true => worker cx fuel rest (item.entry.canonPath :: seen)
          | .ok false =>
              match cx.needle.check item.entry.canonPath with
              | .error e => ([], .err e)
              | .ok .Excluded => worker cx fuel rest (item.entry.canonPath :: seen)
              | .ok .Included =>
                  match cx.pe item.entry with
                  | .Continue =>
                      if item.entry.ty = EntryType.Dir then
                        match loadDir cx.ft item.entry item.ignores with
                        | .error e => ([item.entry], .err e)
                        | .ok newItems =>
                            (item.entry ::
                              (worker cx fuel (rest ++ newItems)
                                (item.entry.canonPath :: seen)).1,
                              (worker cx fuel (rest ++ newItems)
                                (item.entry.canonPath :: seen)).2)
                      else
                        (item.entry ::
                          (worker cx fuel rest (item.entry.canonPath :: seen)).1,
                          (worker cx fuel rest (item.entry.canonPath :: seen)).2)
                  | .Skip =>
                      (item.entry ::
                        (worker cx fuel rest (item.entry.canonPath :: seen)).1,
                        (worker cx fuel rest (item.entry.canonPath :: seen)).2)
                  | .Stop => ([item.entry], .stopped)
              | .ok .Unknown =>
                  if item.entry.ty = EntryType.Dir then
                    match loadDir cx.ft item.entry item.ignores with
                    | .error e => ([], .err e)
                    | .ok newItems =>
                        worker cx fuel (rest ++ newItems) (item.entry.canonPath :: seen)
                  else worker cx fuel rest (item.entry.canonPath :: seen)

/-- The initial work queue built by the `Traverser` constructor
(globstari-traverse.cpp:122-124): the root entry at depth 0 with an empty
ignore matcher. -/
def initItems (rootPath : List Char) : List WorkItem :=
  [⟨⟨EntryType.Dir, rootPath, 0⟩, emptyMatcher⟩]

/-- Model of the `Traverser` constructor (globstari-traverse.cpp:109-125):
canonicalize the base path, anchor every needle glob at the root (with a
trailing slash appended when missing), and finalize the needle matcher. -/
def mkNeedleMatcher (ft : FileTree) (basePath : List Char)
    (needle : List (List Char)) : Except Err (List Char × Matcher) :=
  match ft.canonicalize basePath with
  | .error e => .error e
  | .ok rootPath =>
      let anchor := if rootPath.getLast? = some '/' then rootPath else rootPath ++ ['/']
      match emptyMatcher.addGlobsAt needle anchor with
      | .error e => .error e
      | .ok m0 =>
          match m0.finalize with
          | .error e => .error e
          | .ok nm => .ok (rootPath, nm)

/-- Model of `globstari()` (globstari-traverse.cpp:348-357) together with
`Traverser::run` (150-164): build the traverser, run the worker, catch
`StopTraversal`, and propagate every other exception.  Returns the
entries passed to the ProcessEntry callback. -/
def globstariModel (ft : FileTree) (pe : Entry → PStatus) (basePath : List Char)
    (needle : List (List Char)) (maxDepth : Int) (fuel : Nat) :
    Except Err (List Entry) :=
  match mkNeedleMatcher ft basePath needle with
  | .error e => .error e
  | .ok rp =>
      let wr := worker ⟨ft, pe, rp.2, maxDepth⟩ fuel (initItems rp.1) []
      match wr.2 with
      | .err e => .error e
      | _ => .ok wr.1

-- === Decimal representations (inputs for the numeric-range claims) ======

/-- The decimal digit character for `r % 10`. -/
def digitOf (r : Nat) : Char :=
  match r with
  | 0 => '0'
  | 1 => '1'
  | 2 => '2'
  | 3 => '3'
  | 4 => '4'
  | 5 => '5'
  | 6 => '6'
  | 7 => '7'
  | 8 => '8'
  | _ => '9'

/-- Fuelled most-significant-first decimal digits of a natural number. -/
def natDigsGo (fuel : Nat) (x : Nat) (acc : List Char) : List Char :=
  match fuel with
  | 0 => acc
  | fuel + 1 =>
      if x < 10 then digitOf x :: acc
      else natDigsGo fuel (x / 10) (digitOf (x % 10) :: acc)

/-- Decimal digits of a natural number, no leading zeros (except "0"). -/
def natDigs (x : Nat) : List Char := natDigsGo (x + 1) x []

/-- Decimal representation of an integer, with `-` for negatives. -/
def intStr (n : Int) : List Char :=
  if n < 0 then '-' :: natDigs (-n).toNat else natDigs n.toNat

/-- The glob `{n..m}` for integers `n` and `m`. -/
def numGlob (n m : Int) : List Char :=
  '{' :: (intStr n ++ '.' :: '.' :: intStr m ++ ['}'])

-- === Helpers composing the GlobSet / Matcher API across exceptions ======

/-- Add one glob to a fresh GlobSet and finalize it. -/
def mkGlobSet1 (g : List Char) : Except Err GlobSet :=
  match emptyGlobSet.addGlob g with
  | .error e => .error e
  | .ok gs => gs.finalize

/-- Add two globs, in this order, to a fresh GlobSet and finalize it. -/
def mkGlobSet2 (a b : List Char) : Except Err GlobSet :=
  match emptyGlobSet.addGlob a with
  | .error e => .error e
  | .ok g1 =>
      match g1.addGlob b with
      | .error e => .error e
      | .ok g2 => g2.finalize

/-- Query a (possibly failed) GlobSet for a path. -/
def gsContains (r : Except Err GlobSet) (path : List Char) : Except Err Bool :=
  match r with
  | .error e => .error e
  | .ok gs => gs.contains path

/-- Query a (possibly failed) Matcher for a path. -/
def mCheck (r : Except Err Matcher) (path : List Char) : Except Err PathCheckResult :=
  match r with
  | .error e => .error e
  | .ok m => m.check path

-- === Concrete inputs for counterexamples and witnesses ==================

/-- A ProcessEntry callback that always continues. -/
def peContinue : Entry → PStatus := fun _ => .Continue

/-- A ProcessEntry callback that always stops. -/
def peStop : Entry → PStatus := fun _ => .Stop

/-- A tiny file tree: directory `/r` containing the single file `/r/x`;
no ignore files exist. -/
def ftDepth : FileTree :=
  { readDir := fun d =>
      if d = "/r".toList then .ok [⟨.File, "/r/x".toList, -1⟩] else .ok []
    readFile := fun _ => .error (.runtimeError [])
    canonicalize := fun q => if q = "/r".toList then .ok "/r".toList else .ok []
    ignoresForDir := fun _ => [".eignore".toList] }

/-- A file tree with an ignore file: directory `/i` contains `/i/file` and
`/i/ignored1`, and its `.eignore` holds the single pattern `ignored*`. -/
def ftIgn : FileTree :=
  { readDir := fun d =>
      if d = "/i".toList then
        .ok [⟨.File, "/i/file".toList, -1⟩, ⟨.File, "/i/ignored1".toList, -1⟩]
      else .ok []
    readFile := fun q =>
      if q = "/i/.eignore".toList then .ok "ignored*\n".toList
      else .error (.runtimeError [])
    canonicalize := fun q =>
      if q = "/i".toList then .ok "/i".toList
      else if q = "/i//.eignore".toList then .ok "/i/.eignore".toList
      else .ok []
    ignoresForDir := fun _ => [".eignore".toList] }

/-- A two-layer matcher (include `/a*`, then exclude `/ab`), used as a
concrete instance for the layer-scan claim. -/
def mTwoLayer : Matcher :=
  match emptyMatcher.addGlob "/a*".toList with
  | .error _ => emptyMatcher
  | .ok m1 =>
      match m1.addGlob "!/ab".toList with
      | .error _ => emptyMatcher
      | .ok m2 =>
          match m2.finalize with
          | .error _ => emptyMatcher
          | .ok m3 => m3


-- === Derived instances and small helpers for stating theorems ===========

deriving instance DecidableEq for Except

/-- Whether an exception-carrying result succeeded. -/
def exceptIsOk {α : Type} (r : Except Err α) : Bool :=
  match r with
  | .ok _ => true
  | .error _ => false

/-- The sign class `[\+\-]` of the numeric-range regex. -/
def signClsA : RAtom := .cls false [.one '+', .one '-']

/-- The digit class `\d`. -/
def digClsA : RAtom := .cls false [.range '0' '9']

/-- The body of the capture group for a numeric range: `[\+\-]?\d+`. -/
def rxNumInner : Rx := .seq (.optA signClsA) (.seq (.plusA digClsA) .eps)

/-- The compiled form of `^(?:(?:([\+\-]?\d+)))$`. -/
def rxNum : Rx :=
  .seq (.seq (.seq (.group 1 rxNumInner) .eps) .eps) .eps

/-- The needle matcher the `Traverser` constructor builds for the `/r`
tree with needle `*` (used by the traversal witnesses). -/
def nmDepth : Matcher :=
  match mkNeedleMatcher ftDepth "/r".toList ["*".toList] with
  | .ok rp => rp.2
  | .error _ => emptyMatcher

-- ========================================================================
-- Theorems
-- ========================================================================

/-- C2: the claim states that a finalized glob set built from the two
numeric-range globs `{1..10}` and `{100..109}` treats each glob as an
independent criterion and accepts exactly `/1`, `/10`, `/100`, `/109`
among the spec's candidates.  The code under `src/` instead compiles both
globs into one combined regex (GlobSet::finalize, globstari.cpp:346-387)
whose first capture group swallows the digits, so whichever way the
`unordered_set` orders the two globs, one range shadows the other: with
insertion order `{1..10}`,`{100..109}` the candidates `100` and `109` are
rejected, and with the opposite order `1` and `10` are rejected — yet the
repository's own test (t/globstari-globset-t.cpp:155-171) expects all
four to be accepted.  Moreover, at GlobSet level none of the spec's
slash-prefixed candidates matches at all.  This theorem evaluates the
embedded code at those failing inputs. -/
theorem c2_code_eval :
    gsContains (mkGlobSet2 "\x7b1..10\x7d".toList "\x7b100..109\x7d".toList)
        "1".toList = .ok true ∧
    gsContains (mkGlobSet2 "\x7b1..10\x7d".toList "\x7b100..109\x7d".toList)
        "10".toList = .ok true ∧
    gsContains (mkGlobSet2 "\x7b1..10\x7d".toList "\x7b100..109\x7d".toList)
        "100".toList = .ok false ∧
    gsContains (mkGlobSet2 "\x7b1..10\x7d".toList "\x7b100..109\x7d".toList)
        "109".toList = .ok false ∧
    gsContains (mkGlobSet2 "\x7b100..109\x7d".toList "\x7b1..10\x7d".toList)
        "100".toList = .ok true ∧
    gsContains (mkGlobSet2 "\x7b100..109\x7d".toList "\x7b1..10\x7d".toList)
        "1".toList = .ok false ∧
    gsContains (mkGlobSet2 "\x7b100..109\x7d".toList "\x7b1..10\x7d".toList)
        "10".toList = .ok false ∧
    gsContains (mkGlobSet2 "\x7b1..10\x7d".toList "\x7b100..109\x7d".toList)
        "/1".toList = .ok false ∧
    gsContains (mkGlobSet2 "\x7b1..10\x7d".toList "\x7b100..109\x7d".toList)
        "/10".toList = .ok false ∧
    gsContains (mkGlobSet2 "\x7b1..10\x7d".toList "\x7b100..109\x7d".toList)
        "/100".toList = .ok false ∧
    gsContains (mkGlobSet2 "\x7b1..10\x7d".toList "\x7b100..109\x7d".toList)
        "/109".toList = .ok false :=
  ⟨rfl, rfl, rfl, rfl, rfl, rfl, rfl, rfl, rfl, rfl, rfl⟩

/-- C4: the claim states that anchoring a slash-free glob `g` at a root
passed as `r + "/"` yields the glob `r + "/**/" + g`, so that only paths
below `r` can match.  The code (Matcher::addGlob(glob, path),
globstari-matcher.cpp:82-140) strips the trailing slash and appends
`**/` directly, producing `r + "**/" + g` — contradicting the comment
right above it (`fullGlob is path[double_star]/[glob]`, where `path` ends
in `/`).  Consequently anchoring `a` at `/base/` yields `/base**/a`, not
`/base/**/a`, and the path `/baseball/a`, which is not below `/base`, is
Included.  The escaping of EditorConfig-special bytes in the root itself
does happen (last conjunct). -/
theorem c4_code_eval :
    anchoredGlob "a".toList "/base/".toList = "/base**/a".toList ∧
    anchoredGlob "a".toList "/base/".toList ≠ "/base/**/a".toList ∧
    mCheck ((emptyMatcher.addGlobAt "a".toList "/base/".toList).bind Matcher.finalize)
        "/baseball/a".toList = .ok .Included ∧
    anchoredGlob "a".toList "/b-d/".toList = "/b\\-d**/a".toList :=
  ⟨rfl, by decide, rfl, rfl⟩

theorem charNe (p : Char → Bool) (c x : Char) (h : p c = true) (hx : p x = false) :
    c ≠ x := by
  intro he
  rw [he, hx] at h
  cases h

theorem digitOf_isDigit (r : Nat) : isDigitC (digitOf r) = true := by
  unfold digitOf
  split <;> decide

theorem digitVal_digitOf (r : Nat) (h : r < 10) : digitVal (digitOf r) = r := by
  interval_cases r <;> decide

theorem natDigsGo_fuel (x : Nat) : ∀ f1 f2 acc, x < f1 → x < f2 →
    natDigsGo f1 x acc = natDigsGo f2 x acc := by
  induction x using Nat.strong_induction_on with
  | _ x ih =>
      intro f1 f2 acc h1 h2
      cases f1 with
      | zero => omega
      | succ f1 =>
          cases f2 with
          | zero => omega
          | succ f2 =>
              rw [natDigsGo, natDigsGo]
              by_cases hx : x < 10
              · rw [if_pos hx, if_pos hx]
              · rw [if_neg hx, if_neg hx]
                have hd : x / 10 < x := Nat.div_lt_self (by omega) (by omega)
                exact ih (x / 10) hd f1 f2 _ (by omega) (by omega)

theorem natDigsGo_acc (x : Nat) : ∀ fuel acc, x < fuel →
    natDigsGo fuel x acc = natDigsGo fuel x [] ++ acc := by
  induction x using Nat.strong_induction_on with
  | _ x ih =>
      intro fuel acc hf
      cases fuel with
      | zero => omega
      | succ fuel =>
          rw [natDigsGo, natDigsGo]
          by_cases hx : x < 10
          · rw [if_pos hx, if_pos hx]
            rfl
          · rw [if_neg hx, if_neg hx]
            have hd : x / 10 < x := Nat.div_lt_self (by omega) (by omega)
            have hfd : x / 10 < fuel := by omega
            rw [ih (x / 10) hd fuel (digitOf (x % 10) :: acc) hfd,
              ih (x / 10) hd fuel [digitOf (x % 10)] hfd,
              List.append_assoc]
            rfl

theorem natDigs_unfold (x : Nat) :
    natDigs x = if x < 10 then [digitOf x] else natDigs (x / 10) ++ [digitOf (x % 10)] := by
  by_cases hx : x < 10
  · rw [if_pos hx]
    rw [natDigs, natDigsGo, if_pos hx]
  · rw [if_neg hx]
    rw [natDigs, natDigsGo, if_neg hx]
    rw [natDigsGo_acc (x / 10) x [digitOf (x % 10)] (by omega)]
    rw [natDigs, natDigsGo_fuel (x / 10) x (x / 10 + 1) [] (by omega) (by omega)]

theorem natDigs_ne_nil (x : Nat) : natDigs x ≠ [] := by
  rw [natDigs_unfold]
  by_cases hx : x < 10
  · rw [if_pos hx]; simp
  · rw [if_neg hx]; simp

theorem natDigs_all_digits (x : Nat) : ∀ c ∈ natDigs x, isDigitC c = true := by
  induction x using Nat.strong_induction_on with
  | _ x ih =>
      intro c hc
      rw [natDigs_unfold] at hc
      by_cases hx : x < 10
      · rw [if_pos hx] at hc
        rw [List.mem_singleton.mp hc]
        exact digitOf_isDigit x
      · rw [if_neg hx] at hc
        rw [List.mem_append] at hc
        rcases hc with hc | hc
        · exact ih (x / 10) (Nat.div_lt_self (by omega) (by omega)) c hc
        · rw [List.mem_singleton.mp hc]
          exact digitOf_isDigit _

theorem digitsVal_concat (l : List Char) (c : Char) :
    digitsVal (l ++ [c]) = digitsVal l * 10 + digitVal c := by
  rw [digitsVal, List.foldl_append]
  rfl

theorem digitsVal_natDigs (x : Nat) : digitsVal (natDigs x) = x := by
  induction x using Nat.strong_induction_on with
  | _ x ih =>
      rw [natDigs_unfold]
      by_cases hx : x < 10
      · rw [if_pos hx]
        show 0 * 10 + digitVal (digitOf x) = x
        rw [digitVal_digitOf x hx]
        omega
      · rw [if_neg hx]
        rw [digitsVal_concat]
        rw [ih (x / 10) (Nat.div_lt_self (by omega) (by omega))]
        rw [digitVal_digitOf _ (Nat.mod_lt _ (by omega))]
        omega

theorem takeWhile_all_append (p : Char → Bool) (l rest : List Char)
    (h : ∀ c ∈ l, p c = true) (hr : ∀ c, rest.head? = some c → p c = false) :
    (l ++ rest).takeWhile p = l := by
  induction l with
  | nil =>
      cases rest with
      | nil => rfl
      | cons r t =>
          simp [List.takeWhile_cons, hr r rfl]
  | cons a l ih =>
      simp only [List.cons_append, List.takeWhile_cons, h a (by simp), if_true]
      rw [ih (fun c hc => h c (by simp [hc]))]

theorem digit_not_space (c : Char) (h : isDigitC c = true) : isSpaceC c = false := by
  by_contra hs
  rw [Bool.not_eq_false] at hs
  unfold isSpaceC at hs
  simp only [decide_eq_true_eq] at hs
  rcases hs with rfl | rfl | rfl | rfl | rfl | rfl <;> exact absurd h (by decide)

theorem strtollModel_digits (l rest : List Char) (hl : l ≠ [])
    (hall : ∀ c ∈ l, isDigitC c = true)
    (hr : ∀ c, rest.head? = some c → isDigitC c = false) :
    strtollModel (l ++ rest) = (digitsVal l : Int) := by
  obtain ⟨d, ds, rfl⟩ := List.exists_cons_of_ne_nil hl
  have hd := hall d (by simp)
  unfold strtollModel
  rw [List.cons_append, List.dropWhile_cons, digit_not_space d hd]
  simp only [Bool.false_eq_true, if_false]
  rw [if_neg (charNe isDigitC d '-' hd (by decide)),
    if_neg (charNe isDigitC d '+' hd (by decide))]
  rw [← List.cons_append,
    takeWhile_all_append isDigitC (d :: ds) rest hall hr]

theorem strtollModel_intStr (n : Int) (rest : List Char)
    (hr : ∀ c, rest.head? = some c → isDigitC c = false) :
    strtollModel (intStr n ++ rest) = n := by
  unfold intStr
  by_cases hn : n < 0
  · rw [if_pos hn]
    unfold strtollModel
    rw [List.cons_append, List.dropWhile_cons]
    rw [show isSpaceC '-' = false from rfl]
    simp only [Bool.false_eq_true, if_false]
    rw [if_pos trivial]
    rw [takeWhile_all_append isDigitC _ rest (natDigs_all_digits _) hr]
    rw [digitsVal_natDigs]
    rw [Int.toNat_of_nonneg (by omega : (0 : Int) ≤ -n)]
    omega
  · rw [if_neg hn]
    rw [strtollModel_digits _ rest (natDigs_ne_nil _) (natDigs_all_digits _) hr]
    rw [digitsVal_natDigs]
    rw [Int.toNat_of_nonneg (by omega : (0 : Int) ≤ n)]

theorem intStr_chars (n : Int) : ∀ c ∈ intStr n, isDigitC c = true ∨ c = '-' := by
  intro c hc
  unfold intStr at hc
  by_cases hn : n < 0
  · rw [if_pos hn] at hc
    rcases List.mem_cons.mp hc with rfl | hc
    · right; rfl
    · left; exact natDigs_all_digits _ c hc
  · rw [if_neg hn] at hc
    left; exact natDigs_all_digits _ c hc

theorem bracesPairedGo_skip (l : List Char)
    (hl : ∀ c ∈ l, c ≠ '{' ∧ c ≠ '}' ∧ c ≠ '\\') :
    ∀ rest a b, bracesPairedGo (l ++ rest) a b = bracesPairedGo rest a b := by
  induction l with
  | nil => intro rest a b; rfl
  | cons c l ih =>
      intro rest a b
      have hc := hl c (by simp)
      rw [List.cons_append, bracesPairedGo.eq_def]
      dsimp only
      rw [if_neg hc.2.2, if_neg hc.2.1, if_neg hc.1]
      exact ih (fun d hd => hl d (by simp [hd])) rest a b

theorem singleScan_skip (l : List Char)
    (hl : ∀ c ∈ l, c ≠ ',' ∧ c ≠ '\\' ∧ c ≠ '}') :
    ∀ rest k, singleScan (l ++ '}' :: rest) k = some (k + l.length) := by
  induction l with
  | nil => intro rest k; rw [List.nil_append, singleScan.eq_def]; simp
  | cons c l ih =>
      intro rest k
      have hc := hl c (by simp)
      rw [List.cons_append, singleScan.eq_def]
      dsimp only
      rw [if_neg hc.2.2, if_neg hc.2.1, if_neg hc.1]
      rw [ih (fun d hd => hl d (by simp [hd])) rest (k + 1)]
      rw [List.length_cons]
      congr 1
      omega

theorem dropSign_digit_head (l : List Char) (d : Char) (hh : l.head? = some d)
    (hd : isDigitC d = true) : dropSign l = l := by
  cases l with
  | nil => rfl
  | cons c t =>
      rw [List.head?_cons, Option.some.injEq] at hh
      rw [dropSign, if_neg]
      rw [hh]
      push_neg
      exact ⟨charNe isDigitC d '+' hd (by decide), charNe isDigitC d '-' hd (by decide)⟩

theorem dropSign_intStr (n : Int) (rest : List Char) :
    dropSign (intStr n ++ rest) = natDigs n.natAbs ++ rest := by
  unfold intStr
  by_cases hn : n < 0
  · rw [if_pos hn, List.cons_append, dropSign, if_pos (by right; rfl)]
    congr 2
    omega
  · rw [if_neg hn]
    obtain ⟨d, ds, he⟩ := List.exists_cons_of_ne_nil (natDigs_ne_nil n.toNat)
    have hd : isDigitC d = true := by
      apply natDigs_all_digits n.toNat
      rw [he]; simp
    rw [dropSign_digit_head _ d (by rw [he]; rfl) hd]
    congr 2
    omega

theorem numGlob_decomp (n m : Int) :
    numGlob n m = '{' :: ((intStr n ++ '.' :: '.' :: intStr m) ++ ['}']) := by
  rw [numGlob]

theorem numBody_chars (n m : Int) :
    ∀ c ∈ intStr n ++ '.' :: '.' :: intStr m,
      isDigitC c = true ∨ c = '-' ∨ c = '.' := by
  intro c hc
  rw [List.mem_append] at hc
  rcases hc with hc | hc
  · rcases intStr_chars n c hc with h | h
    · left; exact h
    · right; left; exact h
  · rcases List.mem_cons.mp hc with rfl | hc
    · right; right; rfl
    · rcases List.mem_cons.mp hc with rfl | hc
      · right; right; rfl
      · rcases intStr_chars m c hc with h | h
        · left; exact h
        · right; left; exact h

theorem numBody_not_special (n m : Int) (c : Char)
    (hc : c ∈ intStr n ++ '.' :: '.' :: intStr m) :
    c ≠ '{' ∧ c ≠ '}' ∧ c ≠ '\\' ∧ c ≠ ',' := by
  rcases numBody_chars n m c hc with h | h | h
  · exact ⟨charNe isDigitC c '{' h (by decide), charNe isDigitC c '}' h (by decide),
      charNe isDigitC c '\\' h (by decide), charNe isDigitC c ',' h (by decide)⟩
  · rw [h]; refine ⟨by decide, by decide, by decide, by decide⟩
  · rw [h]; refine ⟨by decide, by decide, by decide, by decide⟩

theorem bracesPaired_numGlob (n m : Int) : bracesPaired (numGlob n m) = true := by
  rw [numGlob_decomp, bracesPaired, bracesPairedGo.eq_def]
  dsimp only
  rw [if_neg (by decide : ¬ ('{' : Char) = '\\'),
    if_neg (by decide : ¬ ('{' : Char) = '}'), if_pos rfl]
  rw [bracesPairedGo_skip _
    (fun c hc => ⟨(numBody_not_special n m c hc).1, (numBody_not_special n m c hc).2.1,
      (numBody_not_special n m c hc).2.2.1⟩)]
  decide

theorem singleScan_numGlob (n m : Int) :
    singleScan ((intStr n ++ '.' :: '.' :: intStr m) ++ ['}']) 0 =
      some (intStr n ++ '.' :: '.' :: intStr m).length := by
  have h := singleScan_skip (intStr n ++ '.' :: '.' :: intStr m)
    (fun c hc => ⟨(numBody_not_special n m c hc).2.2.2, (numBody_not_special n m c hc).2.2.1,
      (numBody_not_special n m c hc).2.1⟩) [] 0
  simpa using h


theorem numRangeMatch_numGlob (n m : Int) : numRangeMatch (numGlob n m) = true := by
  rw [numGlob]
  rw [numRangeMatch]
  simp only [List.append_assoc, List.cons_append]
  have h1 : dropSign (intStr n ++ '.' :: '.' :: (intStr m ++ ['}'])) =
      natDigs n.natAbs ++ '.' :: '.' :: (intStr m ++ ['}']) :=
    dropSign_intStr n ('.' :: '.' :: (intStr m ++ ['}']))
  rw [h1]
  rw [takeWhile_all_append isDigitC (natDigs n.natAbs) _ (natDigs_all_digits _)
    (fun c hc => by rw [List.head?_cons, Option.some.injEq] at hc; rw [← hc]; decide)]
  rw [List.drop_left]
  have h2 : dropSign (intStr m ++ ['}']) = natDigs m.natAbs ++ ['}'] := dropSign_intStr m _
  simp only [h2]
  rw [takeWhile_all_append isDigitC (natDigs m.natAbs) _ (natDigs_all_digits _)
    (fun c hc => by rw [List.head?_cons, Option.some.injEq] at hc; rw [← hc]; decide)]
  rw [List.drop_left]
  simp [natDigs_ne_nil]

theorem prefix_dd_false (c : Char) (hc : ¬ c = '.') (t : List Char) :
    ['.', '.'].isPrefixOf (c :: t) = false := by
  simp [List.isPrefixOf]
  intro h
  exact absurd h.symm hc

theorem strstrFrom_found (g pat : List Char) (p : Nat)
    (hp : pat.isPrefixOf (g.drop p) = true) (hpl : p ≤ g.length) :
    ∀ f i, p ≤ i + f → i ≤ p →
      (∀ j, i ≤ j → j < p → pat.isPrefixOf (g.drop j) = false) →
      strstrFrom (f + 1) g i pat = some p := by
  intro f
  induction f with
  | zero =>
      intro i hif hip _
      have : i = p := by omega
      subst this
      rw [strstrFrom, if_pos hp]
  | succ f ih =>
      intro i hif hip hj
      by_cases he : i = p
      · subst he
        rw [strstrFrom, if_pos hp]
      · have hlt : i < p := by omega
        rw [strstrFrom, if_neg (by rw [hj i le_rfl hlt]; exact Bool.false_ne_true),
          if_neg (by omega)]
        exact ih (i + 1) (by omega) (by omega) (fun j h1 h2 => hj j (by omega) h2)

theorem numGlob_len (n m : Int) :
    (numGlob n m).length = (intStr n).length + (intStr m).length + 4 := by
  rw [numGlob]
  simp [List.length_append]
  omega

theorem numGlob_get_lt (n m : Int) (j : Nat) (h1 : 1 ≤ j)
    (h2 : j < 1 + (intStr n).length) :
    ∃ c, (numGlob n m).get? j = some c ∧ c ∈ intStr n := by
  rw [numGlob]
  obtain ⟨j', rfl⟩ : ∃ j', j = j' + 1 := ⟨j - 1, by omega⟩
  rw [List.get?_cons_succ]
  have hj' : j' < (intStr n).length := by omega
  rw [List.append_assoc]
  rw [List.get?_append hj']
  refine ⟨(intStr n).get ⟨j', hj'⟩, List.get?_eq_get hj', ?_⟩
  exact List.get_mem _ _ _

theorem intStr_no_dot (n : Int) (c : Char) (hc : c ∈ intStr n) : ¬ c = '.' := by
  rcases intStr_chars n c hc with h | h
  · intro he
    subst he
    exact absurd h (by decide)
  · intro he
    rw [he] at h
    exact absurd h (by decide)

theorem strstrFrom_numGlob (n m : Int) :
    strstrFrom ((numGlob n m).length + 1) (numGlob n m) 0 ['.', '.'] =
      some (1 + (intStr n).length) := by
  have hdrop : (numGlob n m).drop (1 + (intStr n).length) =
      '.' :: '.' :: (intStr m ++ ['}']) := by
    rw [numGlob]
    rw [show 1 + (intStr n).length = (intStr n).length + 1 from by omega]
    rw [List.drop_succ_cons]
    rw [List.append_assoc]
    rw [List.drop_left]
    simp
  have hp : List.isPrefixOf ['.', '.'] ((numGlob n m).drop (1 + (intStr n).length)) = true := by
    rw [hdrop]
    simp [List.isPrefixOf]
  have hpl : 1 + (intStr n).length ≤ (numGlob n m).length := by
    rw [numGlob_len]; omega
  rw [show (numGlob n m).length + 1 = ((numGlob n m).length) + 1 from rfl]
  refine strstrFrom_found (numGlob n m) ['.', '.'] (1 + (intStr n).length) hp hpl
    ((numGlob n m).length) 0 (by rw [numGlob_len]; omega) (by omega) ?_
  intro j _ hjp
  rcases Nat.eq_zero_or_pos j with rfl | hj1
  · rw [show (numGlob n m).drop 0 = numGlob n m from List.drop_zero _]
    rw [numGlob]
    exact prefix_dd_false '{' (by decide) _
  · obtain ⟨c, hc, hmem⟩ := numGlob_get_lt n m j hj1 hjp
    have hdj : (numGlob n m).drop j =
        c :: ((numGlob n m).drop (j + 1)) := by
      have hjl : j < (numGlob n m).length := by rw [numGlob_len]; omega
      rw [List.drop_eq_get_cons hjl]
      congr 1
      rw [List.get?_eq_get hjl] at hc
      exact (Option.some.injEq _ _ ▸ hc)
    rw [hdj]
    exact prefix_dd_false c (intStr_no_dot n c hmem) _

theorem g2rGo_numGlob (n m : Int) (f : Nat) (src : List Char) (ranges : List (Int × Int)) :
    g2rGo (numGlob n m) (f + 1 + 1) 0 false 0 true [] src ranges =
      (src ++ numRangeEmit, ranges ++ [(n, m)]) := by
  have hget0 : (numGlob n m).get? 0 = some '{' := by rw [numGlob]; rfl
  have hdrop1 : (numGlob n m).drop (0 + 1) =
      (intStr n ++ '.' :: '.' :: intStr m) ++ ['}'] := by rw [numGlob]; rfl
  have htake : (numGlob n m).take ((intStr n ++ '.' :: '.' :: intStr m).length + 2) =
      numGlob n m := by
    apply List.take_of_length_le
    rw [numGlob_len]
    simp only [List.length_append, List.length_cons]
    omega
  have hfirst : strtollModel ((intStr n ++ '.' :: '.' :: intStr m) ++ ['}']) = n := by
    rw [List.append_assoc, List.cons_append, List.cons_append]
    exact strtollModel_intStr n _ (fun c hc => by
      rw [List.head?_cons, Option.some.injEq] at hc
      rw [← hc]; decide)
  have hdrop2 : (numGlob n m).drop (1 + (intStr n).length + 2) = intStr m ++ ['}'] := by
    rw [numGlob]
    rw [show 1 + (intStr n).length + 2 = ((intStr n).length + 2) + 1 from by omega]
    rw [List.drop_succ_cons]
    rw [List.append_assoc, List.cons_append, List.cons_append]
    rw [← List.drop_drop]
    rw [List.drop_left]
    rfl
  have hsecond : strtollModel ((numGlob n m).drop (1 + (intStr n).length + 2)) = m := by
    rw [hdrop2]
    exact strtollModel_intStr m ['}'] (fun c hc => by
      rw [List.head?_cons, Option.some.injEq] at hc
      rw [← hc]; decide)
  have hnone : (numGlob n m).get? ((intStr n ++ '.' :: '.' :: intStr m).length + 2) =
      none := by
    apply List.get?_eq_none.mpr
    rw [numGlob_len]
    simp only [List.length_append, List.length_cons]
    omega
  rw [g2rGo]
  rw [hget0]
  dsimp only
  rw [if_neg (List.not_mem_nil 0)]
  rw [if_neg (by decide : ¬ ('{' : Char) = '\\')]
  rw [if_neg (by decide : ¬ ('{' : Char) = '?')]
  rw [if_neg (by decide : ¬ ('{' : Char) = '*')]
  rw [if_neg (by decide : ¬ ('{' : Char) = '[')]
  rw [if_neg (by decide : ¬ ('{' : Char) = ']')]
  rw [if_neg (by decide : ¬ ('{' : Char) = '-')]
  rw [if_pos (rfl : ('{' : Char) = '{')]
  rw [if_neg (by simp : ¬ ¬ (true : Bool) = true)]
  rw [hdrop1, singleScan_numGlob]
  dsimp only
  rw [List.drop_zero, htake]
  rw [numRangeMatch_numGlob]
  rw [if_pos rfl]
  rw [strstrFrom_numGlob]
  dsimp only
  rw [hfirst, hsecond]
  simp only [Nat.zero_add]
  rw [g2rGo]
  rw [hnone]

theorem globToRegexSrc_numGlob (n m : Int) (src : List Char)
    (ranges : List (Int × Int)) :
    globToRegexSrc (numGlob n m) src ranges =
      (src ++ numRangeEmit, ranges ++ [(n, m)]) := by
  rw [globToRegexSrc]
  rw [bracesPaired_numGlob]
  rw [show (numGlob n m).length + 1 =
      ((intStr n).length + (intStr m).length + 3) + 1 + 1 from by
    rw [numGlob_len]]
  exact g2rGo_numGlob n m _ src ranges

theorem finalize_numGlob (n m : Int) :
    GlobSet.finalize ⟨[numGlob n m], [], none⟩ =
      .ok ⟨[numGlob n m], [(n, m)], some rxNum⟩ := by
  rw [GlobSet.finalize]
  rw [if_neg (by simp : ¬ ([numGlob n m] = ([] : List (List Char))))]
  rw [buildGlobSrc]
  dsimp only
  rw [if_pos rfl]
  rw [globToRegexSrc_numGlob]
  rw [buildGlobSrc]
  rfl

theorem ways_seq_eps (r : Rx) (s : List Char) : ways (.seq r .eps) s = ways r s := by
  rw [ways]
  simp [ways]

theorem ways_optA_nomatch (a : RAtom) (c : Char) (t : List Char)
    (h : atomMatch a c = false) :
    ways (.optA a) (c :: t) = [(c :: t, [])] := by
  rw [ways]
  rw [if_neg (by rw [h]; exact Bool.false_ne_true)]
  rfl

theorem ways_plusA_all (a : RAtom) (s : List Char)
    (h : ∀ c ∈ s, atomMatch a c = true) :
    ways (.plusA a) s =
      (List.range s.length).map (fun j => (s.drop (s.length - j), ([] : Caps))) := by
  rw [ways]
  have hs : s.takeWhile (atomMatch a) = s := by
    have := takeWhile_all_append (atomMatch a) s [] h (by simp)
    simpa using this
  rw [hs]

theorem fullMatch_rxNum (k : List Char) (hk : k ≠ [])
    (hall : ∀ c ∈ k, isDigitC c = true) :
    fullMatch rxNum k = some [(1, k)] := by
  obtain ⟨c, t, rfl⟩ := List.exists_cons_of_ne_nil hk
  have hdig : ∀ x ∈ c :: t, atomMatch digClsA x = true := by
    intro x hx
    have hx2 := hall x hx
    simp [isDigitC] at hx2
    simp [atomMatch, digClsA, clsItemMatch]
    exact hx2
  have hsign : atomMatch signClsA c = false := by
    have hc := hall c (List.mem_cons_self c t)
    simp [atomMatch, signClsA, clsItemMatch]
    constructor
    · intro he; subst he; exact absurd hc (by decide)
    · intro he; subst he; exact absurd hc (by decide)
  rw [fullMatch]
  rw [rxNum]
  rw [ways_seq_eps, ways_seq_eps, ways_seq_eps]
  rw [ways]
  rw [rxNumInner]
  rw [ways]
  rw [ways_optA_nomatch signClsA c t hsign]
  simp only [List.flatMap_cons, List.flatMap_nil, List.append_nil, List.nil_append,
    Prod.mk.eta, List.map_id']
  rw [ways_seq_eps]
  rw [ways_plusA_all digClsA _ hdig]
  simp only [List.map_map]
  rw [List.length_cons, List.range_succ_eq_map, List.map_cons]
  dsimp only [Function.comp]
  rw [Nat.sub_zero]
  rw [show (c :: t).drop (t.length + 1) = [] from by
    rw [← List.length_cons c t]; exact List.drop_length _]
  rw [List.filter_cons_of_pos (by simp)]
  rw [List.head?_cons]
  rw [Option.map_some']
  dsimp only
  rw [List.length_nil, Nat.sub_zero]
  rw [show t.length + 1 = (c :: t).length from (List.length_cons c t).symm]
  rw [List.take_length]

theorem strtollModel_digits_nil (l : List Char) (hl : l ≠ [])
    (hall : ∀ c ∈ l, isDigitC c = true) :
    strtollModel l = (digitsVal l : Int) := by
  have := strtollModel_digits l [] hl hall (by simp)
  simpa using this

/-- C5: a glob set holding the single numeric-range glob `\x7bn..m\x7d`,
finalized and queried on an all-digit candidate `k`, never raises: it
accepts `k` exactly when `k` does not start with `'0'` and the decimal
value of `k` lies between `n` and `m` inclusive.  In particular a
leading-zero candidate such as `010` is a plain non-match. -/
theorem c5_numeric_range (n m : Int) (k : List Char) (hk : k ≠ [])
    (hall : ∀ c ∈ k, isDigitC c = true) :
    gsContains (mkGlobSet1 (numGlob n m)) k =
      .ok (decide (k.head? ≠ some '0' ∧
        n ≤ (digitsVal k : Int) ∧ (digitsVal k : Int) ≤ m)) := by
  have hadd : emptyGlobSet.addGlob (numGlob n m) = .ok ⟨[numGlob n m], [], none⟩ := by
    rw [GlobSet.addGlob]
    rw [if_neg (by rw [numGlob]; simp)]
    rw [if_neg (by simp [emptyGlobSet])]
    rfl
  rw [mkGlobSet1, hadd]
  dsimp only
  rw [finalize_numGlob]
  rw [gsContains]
  rw [GlobSet.contains]
  dsimp only
  rw [fullMatch_rxNum k hk hall]
  dsimp only
  rw [if_neg (fun h => hk (List.length_eq_zero.mp h))]
  rw [rangeCheckLoop]
  rw [show List.lookup 1 [(1, k)] = some k from rfl]
  dsimp only
  by_cases hz : k.head? = some '0'
  · rw [if_pos hz]
    rw [show (decide (k.head? ≠ some '0' ∧
        n ≤ (digitsVal k : Int) ∧ (digitsVal k : Int) ≤ m)) = false from by
      simp [hz]]
  · rw [if_neg hz]
    rw [if_neg (fun h => hk (List.length_eq_zero.mp h))]
    rw [strtollModel_digits_nil k hk hall]
    by_cases hr : (digitsVal k : Int) < n ∨ (digitsVal k : Int) > m
    · rw [if_pos hr]
      rw [show (decide (k.head? ≠ some '0' ∧
          n ≤ (digitsVal k : Int) ∧ (digitsVal k : Int) ≤ m)) = false from by
        rcases hr with hr | hr
        · simp; intro _ h2; omega
        · simp; intro _ h2; omega]
    · rw [if_neg hr]
      rw [rangeCheckLoop]
      push_neg at hr
      rw [show (decide (k.head? ≠ some '0' ∧
          n ≤ (digitsVal k : Int) ∧ (digitsVal k : Int) ≤ m)) = true from by
        simp [hz, hr.1, hr.2]]

theorem worker_depth_le (cx : TravCtx) (hmd : 1 ≤ cx.maxDepth) :
    ∀ fuel items seen, ∀ e ∈ (worker cx fuel items seen).1, e.depth ≤ cx.maxDepth := by
  intro fuel
  induction fuel with
  | zero => intro items seen e he; simp [worker] at he
  | succ fuel ih =>
      intro items seen e he
      cases items with
      | nil => simp [worker] at he
      | cons item rest =>
          rw [worker] at he
          by_cases h1 : item.entry.canonPath ∈ seen
          · rw [if_pos h1] at he; exact ih rest seen e he
          · rw [if_neg h1] at he
            by_cases h2 : cx.maxDepth > 0 ∧ item.entry.depth > cx.maxDepth
            · rw [if_pos h2] at he; exact ih _ _ e he
            · rw [if_neg h2] at he
              have hdep : item.entry.depth ≤ cx.maxDepth := by
                push_neg at h2
                exact h2 (by omega)
              split at he
              · simp at he
              · exact ih _ _ e he
              · split at he
                · simp at he
                · exact ih _ _ e he
                · split at he
                  · split at he
                    · split at he
                      · rw [List.mem_singleton.mp he]; exact hdep
                      · rw [List.mem_cons] at he
                        rcases he with he | he
                        · rw [he]; exact hdep
                        · exact ih _ _ e he
                    · rw [List.mem_cons] at he
                      rcases he with he | he
                      · rw [he]; exact hdep
                      · exact ih _ _ e he
                  · rw [List.mem_cons] at he
                    rcases he with he | he
                    · rw [he]; exact hdep
                    · exact ih _ _ e he
                  · rw [List.mem_singleton.mp he]; exact hdep
                · split at he
                  · split at he
                    · simp at he
                    · exact ih _ _ e he
                  · exact ih _ _ e he

theorem worker_md_nonpos (ft : FileTree) (pe : Entry → PStatus) (nm : Matcher)
    (a b : Int) (ha : a ≤ 0) (hb : b ≤ 0) :
    ∀ fuel items seen,
      worker ⟨ft, pe, nm, a⟩ fuel items seen = worker ⟨ft, pe, nm, b⟩ fuel items seen := by
  intro fuel
  induction fuel with
  | zero => intro items seen; rfl
  | succ fuel ih =>
      intro items seen
      cases items with
      | nil => rfl
      | cons item rest =>
          rw [worker, worker]
          dsimp only
          rw [if_neg (by omega : ¬ (a > 0 ∧ item.entry.depth > a)),
            if_neg (by omega : ¬ (b > 0 ∧ item.entry.depth > b))]
          split
          · exact ih _ _
          · split
            · rfl
            · exact ih _ _
            · split
              · rfl
              · exact ih _ _
              · split
                · split
                  · split
                    · rfl
                    · rw [ih]
                  · rw [ih]
                · rw [ih]
                · rfl
              · split
                · split
                  · rfl
                  · exact ih _ _
                · exact ih _ _

theorem getLast?_cons_of_mem {α : Type} (a e : α) (l : List α) (h : e ∈ l) :
    (a :: l).getLast? = l.getLast? := by
  cases l with
  | nil => simp at h
  | cons b t => exact List.getLast?_cons_cons

theorem worker_stop_halts (cx : TravCtx) :
    ∀ fuel items seen tr out, worker cx fuel items seen = (tr, out) →
      ∀ e ∈ tr, cx.pe e = .Stop → tr.getLast? = some e ∧ out = .stopped := by
  intro fuel
  induction fuel with
  | zero =>
      intro items seen tr out hw e he hs
      rw [worker] at hw
      cases hw
      simp at he
  | succ fuel ih =>
      intro items seen tr out hw e he hs
      cases items with
      | nil =>
          rw [worker] at hw
          cases hw
          simp at he
      | cons item rest =>
          rw [worker] at hw
          by_cases h1 : item.entry.canonPath ∈ seen
          · rw [if_pos h1] at hw; exact ih _ _ _ _ hw e he hs
          · rw [if_neg h1] at hw
            by_cases h2 : cx.maxDepth > 0 ∧ item.entry.depth > cx.maxDepth
            · rw [if_pos h2] at hw; exact ih _ _ _ _ hw e he hs
            · rw [if_neg h2] at hw
              split at hw
              · cases hw; simp at he
              · exact ih _ _ _ _ hw e he hs
              · split at hw
                · cases hw; simp at he
                · exact ih _ _ _ _ hw e he hs
                · split at hw
                  · rename_i hpe
                    split at hw
                    · split at hw
                      · cases hw
                        rw [List.mem_singleton.mp he, hpe] at hs
                        simp at hs
                      · cases hw
                        rw [List.mem_cons] at he
                        rcases he with he | he
                        · rw [he, hpe] at hs; simp at hs
                        · have hr := ih _ _ _ _ rfl e he hs
                          refine ⟨?_, hr.2⟩
                          rw [getLast?_cons_of_mem _ e _ he]
                          exact hr.1
                    · cases hw
                      rw [List.mem_cons] at he
                      rcases he with he | he
                      · rw [he, hpe] at hs; simp at hs
                      · have hr := ih _ _ _ _ rfl e he hs
                        refine ⟨?_, hr.2⟩
                        rw [getLast?_cons_of_mem _ e _ he]
                        exact hr.1
                  · rename_i hpe
                    cases hw
                    rw [List.mem_cons] at he
                    rcases he with he | he
                    · rw [he, hpe] at hs; simp at hs
                    · have hr := ih _ _ _ _ rfl e he hs
                      refine ⟨?_, hr.2⟩
                      rw [getLast?_cons_of_mem _ e _ he]
                      exact hr.1
                  · cases hw
                    rw [List.mem_singleton.mp he]
                    exact ⟨rfl, rfl⟩
                · split at hw
                  · split at hw
                    · cases hw; simp at he
                    · exact ih _ _ _ _ hw e he hs
                  · exact ih _ _ _ _ hw e he hs

theorem emptyMatcher_check_ne_included (p : List Char) :
    emptyMatcher.check p ≠ .ok .Included := by
  intro h
  rw [Matcher.check, checkCore.eq_def] at h
  simp only [emptyMatcher, readyL] at h
  split at h
  · simp at h
  · split at h
    · simp at h
    · split at h
      · simp at h
      · simp [Matcher.checkGo] at h

theorem worker_empty_needle (cx : TravCtx) (hn : cx.needle = emptyMatcher) :
    ∀ fuel items seen, (worker cx fuel items seen).1 = [] := by
  intro fuel
  induction fuel with
  | zero => intro items seen; rfl
  | succ fuel ih =>
      intro items seen
      cases items with
      | nil => rfl
      | cons item rest =>
          rw [worker]
          by_cases h1 : item.entry.canonPath ∈ seen
          · rw [if_pos h1]; exact ih _ _
          · rw [if_neg h1]
            by_cases h2 : cx.maxDepth > 0 ∧ item.entry.depth > cx.maxDepth
            · rw [if_pos h2]; exact ih _ _
            · rw [if_neg h2]
              split
              · rfl
              · exact ih _ _
              · split
                · rfl
                · exact ih _ _
                · rename_i heq
                  rw [hn] at heq
                  exact absurd heq (emptyMatcher_check_ne_included _)
                · split
                  · split
                    · rfl
                    · exact ih _ _
                  · exact ih _ _

theorem addGlob_delegateChain (m : Matcher) (glob : List Char) (m' : Matcher)
    (h : m.addGlob glob = .ok m') : m'.delegateChain = m.delegateChain := by
  unfold Matcher.addGlob at h
  try dsimp only at h
  iterate 8 (all_goals try split at h)
  all_goals first
    | exact (Except.noConfusion h)
    | (injection h with h2; rw [← h2])

theorem addGlobAt_delegateChain (m : Matcher) (glob path : List Char) (m' : Matcher)
    (h : m.addGlobAt glob path = .ok m') : m'.delegateChain = m.delegateChain := by
  unfold Matcher.addGlobAt at h
  split at h
  · exact (Except.noConfusion h)
  · exact addGlob_delegateChain _ _ _ h

theorem finalize_delegateChain (m : Matcher) (m' : Matcher)
    (h : m.finalize = .ok m') : m'.delegateChain = m.delegateChain := by
  unfold Matcher.finalize at h
  iterate 4 (all_goals try split at h)
  all_goals first
    | exact (Except.noConfusion h)
    | (injection h with h2; rw [← h2])

theorem parseLinesInto_delegateChain :
    ∀ (lines : List (List Char)) (m : Matcher) (rel : List Char) (m' : Matcher),
      parseLinesInto lines m rel = .ok m' → m'.delegateChain = m.delegateChain := by
  intro lines
  induction lines with
  | nil =>
      intro m rel m' h
      injection h with h2
      rw [← h2]
  | cons line rest ih =>
      intro m rel m' h
      rw [parseLinesInto] at h
      split at h
      · exact ih _ _ _ h
      · try dsimp only at h
        iterate 4 (all_goals try split at h)
        all_goals first
          | exact (Except.noConfusion h)
          | (rename_i m1 hadd
             rw [ih _ _ _ h]
             exact addGlobAt_delegateChain _ _ _ _ hadd)

theorem loadIgnoreGo_delegateChain (ft : FileTree) (rel : List Char) :
    ∀ (loadFrom : List (List Char)) (m : Matcher) (m' : Matcher),
      loadIgnoreGo ft rel loadFrom m = .ok m' → m'.delegateChain = m.delegateChain := by
  intro loadFrom
  induction loadFrom with
  | nil =>
      intro m m' h
      injection h with h2
      rw [← h2]
  | cons toLoad rest ih =>
      intro m m' h
      rw [loadIgnoreGo] at h
      try dsimp only at h
      iterate 8 (all_goals try split at h)
      all_goals first
        | exact (Except.noConfusion h)
        | exact ih _ _ h
        | (rename_i m1 hparse
           rw [ih _ _ h]
           exact parseLinesInto_delegateChain _ _ _ _ hparse)

theorem loadIgnoreFiles_delegate (ft : FileTree) (rel : List Char)
    (loadFrom : List (List Char)) (parentIgnores : Matcher) (m' : Matcher)
    (h : loadIgnoreFiles ft rel loadFrom parentIgnores = .ok m') :
    m'.delegate = some parentIgnores := by
  unfold loadIgnoreFiles at h
  split at h
  · exact (Except.noConfusion h)
  · rename_i mm hgo
    have h1 := loadIgnoreGo_delegateChain ft rel loadFrom _ mm hgo
    have h2 := finalize_delegateChain mm m' h
    rw [Matcher.delegate, h2, h1]
    rfl

theorem loadDir_provenance (ft : FileTree) (e : Entry) (ig : Matcher)
    (out : List WorkItem) (h : loadDir ft e ig = .ok out) :
    ∃ ign, loadIgnoreFiles ft (e.canonPath ++ ['/']) (ft.ignoresForDir e.canonPath) ig
        = .ok ign ∧
      ign.delegate = some ig ∧
      ∀ it ∈ out, it.ignores = ign ∧ it.entry.depth = e.depth + 1 := by
  unfold loadDir at h
  split at h
  · exact (Except.noConfusion h)
  · rename_i ign hign
    split at h
    · exact (Except.noConfusion h)
    · rename_i es hes
      injection h with h2
      refine ⟨ign, hign, loadIgnoreFiles_delegate _ _ _ _ _ hign, ?_⟩
      intro it hit
      rw [← h2] at hit
      obtain ⟨ne, hne, hmk⟩ := List.mem_map.mp hit
      rw [← hmk]
      exact ⟨rfl, rfl⟩


theorem checkGo_eq_find (p : List Char) (delres : Except Err PathCheckResult)
    (l : List (GlobSet × Polarity))
    (hl : ∀ sp ∈ l, exceptIsOk (sp.1.contains p) = true) :
    Matcher.checkGo p delres l =
      (match l.find? (fun sp => decide (sp.1.contains p = .ok true)) with
       | some sp => .ok (if sp.2 = Polarity.Include then .Included else .Excluded)
       | none => delres) := by
  induction l with
  | nil => simp [Matcher.checkGo]
  | cons sp l ih =>
      have hsp := hl sp (by simp)
      cases hb : sp.1.contains p with
      | error e => rw [hb] at hsp; simp [exceptIsOk] at hsp
      | ok b =>
          cases b with
          | false =>
              rw [Matcher.checkGo, hb,
                List.find?_cons_of_neg _ (by simp [hb])]
              exact ih (fun sp h => hl sp (List.mem_cons_of_mem _ h))
          | true =>
              rw [Matcher.checkGo, hb,
                List.find?_cons_of_pos _ (by simp [hb])]

/-- C3: for a ready matcher and a non-empty absolute path, `check` scans
the polarity layers from the most recently added one backwards: the first
layer whose glob set contains the path decides the result by its polarity
(Included for an include layer, Excluded for an exclude layer); when no
layer contains the path, the delegate's `check` decides if a delegate
exists, and otherwise the result is Unknown.  (The hypothesis that every
layer's `contains` succeeds rules out per-layer exceptions, which
propagate out of the scan instead.) -/
theorem c3_layer_scan (m : Matcher) (p : List Char)
    (hready : m.ready = true)
    (hlayers : ∀ sp ∈ m.globsets, exceptIsOk (sp.1.contains p) = true)
    (hne : p ≠ [])
    (habs : p.head? = some '/') :
    m.check p =
      (match m.globsets.reverse.find? (fun sp => decide (sp.1.contains p = .ok true)) with
       | some sp => .ok (if sp.2 = Polarity.Include then .Included else .Excluded)
       | none =>
          match m.delegate with
          | some d => d.check p
          | none => .ok .Unknown) := by
  have hr : readyL m.globsets = true := hready
  rw [Matcher.check, checkCore.eq_def]
  dsimp only
  rw [hr]
  rw [if_neg (by simp), if_neg (by simp [hne]), if_neg (by simp [habs])]
  rw [checkGo_eq_find p _ _ (fun sp h => hlayers sp (List.mem_reverse.mp h))]
  cases hd : m.delegateChain with
  | nil => simp [Matcher.delegate, hd]
  | cons g rest => simp [Matcher.delegate, hd, Matcher.check]

/-- C3 witness: the two-layer matcher (include `/a*`, then exclude `/ab`)
is ready, its layers succeed on `/ab`, and the scan decides Excluded from
the most recent layer. -/
theorem c3_layer_scan_witness :
    (mTwoLayer.ready = true ∧
      (∀ sp ∈ mTwoLayer.globsets, exceptIsOk (sp.1.contains "/ab".toList) = true) ∧
      "/ab".toList ≠ [] ∧ "/ab".toList.head? = some '/') ∧
    mTwoLayer.check "/ab".toList = .ok .Excluded := by
  refine ⟨⟨by decide, by decide, by decide, by decide⟩, ?_⟩
  have h := c3_layer_scan mTwoLayer "/ab".toList (by decide) (by decide)
    (by decide) (by decide)
  rw [h]
  rfl

/-- C10: adding the one-byte glob `!` to a matcher raises an error in
every matcher state: the leading `!` selects exclude polarity and is
stripped, and `GlobSet::addGlob` rejects the then-empty remainder — even
though `!` itself is a non-empty glob string. -/
theorem c10_bang_glob_errors (m : Matcher) :
    ∃ e, m.addGlob "!".toList = .error e := by
  show ∃ e, m.addGlob ['!'] = .error e
  unfold Matcher.addGlob
  cases h : m.globsets.getLast? with
  | none =>
      refine ⟨Err.runtimeError "Cannot add an empty glob".toList, ?_⟩
      simp [h, emptyGlobSet, GlobSet.addGlob]
  | some lastSp =>
      cases hp : lastSp.2 with
      | Exclude =>
          refine ⟨Err.runtimeError "Cannot add an empty glob".toList, ?_⟩
          simp [h, hp, GlobSet.addGlob]
      | Include =>
          cases hf : lastSp.1.finalize with
          | error e => exact ⟨e, by simp [h, hp, hf]⟩
          | ok fin =>
              refine ⟨Err.runtimeError "Cannot add an empty glob".toList, ?_⟩
              simp [h, hp, hf, emptyGlobSet, GlobSet.addGlob,
                List.getLast?_append]

theorem worker_nodup_aux (cx : TravCtx) :
    ∀ (fuel : Nat) (items : List WorkItem) (seen : List (List Char)),
      ((worker cx fuel items seen).1.map Entry.canonPath).Nodup ∧
      ∀ q ∈ (worker cx fuel items seen).1, q.canonPath ∉ seen := by
  intro fuel
  induction fuel with
  | zero => intro items seen; simp [worker]
  | succ fuel ih =>
      intro items seen
      cases items with
      | nil => simp [worker]
      | cons item rest =>
          rw [worker]
          by_cases h1 : item.entry.canonPath ∈ seen
          · simp only [if_pos h1]
            exact ⟨(ih rest seen).1, fun q hq => (ih rest seen).2 q hq⟩
          · simp only [if_neg h1]
            have hrec : ∀ items',
                ((worker cx fuel items' (item.entry.canonPath :: seen)).1.map
                  Entry.canonPath).Nodup ∧
                ∀ q ∈ (worker cx fuel items' (item.entry.canonPath :: seen)).1,
                  q.canonPath ∉ seen := by
              intro items'
              refine ⟨(ih items' _).1, fun q hq hm => ?_⟩
              exact (ih items' _).2 q hq (List.mem_cons_of_mem _ hm)
            have hsingle : ((([item.entry] : List Entry).map Entry.canonPath).Nodup ∧
                ∀ q ∈ ([item.entry] : List Entry), q.canonPath ∉ seen) := by
              refine ⟨by simp, fun q hq => ?_⟩
              rw [List.mem_singleton.mp hq]
              exact h1
            have hcons : ∀ items',
                (((item.entry ::
                    (worker cx fuel items' (item.entry.canonPath :: seen)).1).map
                  Entry.canonPath).Nodup ∧
                ∀ q ∈ item.entry ::
                    (worker cx fuel items' (item.entry.canonPath :: seen)).1,
                  q.canonPath ∉ seen) := by
              intro items'
              constructor
              · rw [List.map_cons, List.nodup_cons]
                refine ⟨fun hmem => ?_, (ih items' _).1⟩
                obtain ⟨q, hq, hqe⟩ := List.mem_map.mp hmem
                exact (ih items' _).2 q hq (by rw [hqe]; exact List.mem_cons_self _ _)
              · intro q hq
                cases hq with
                | head => exact h1
                | tail _ hq' => exact (hrec items').2 q hq'
            split
            · exact hrec rest
            · split
              · simp
              · exact hrec rest
              · split
                · simp
                · exact hrec rest
                · split
                  · split
                    · split
                      · exact hsingle
                      · exact hcons _
                    · exact hcons _
                  · exact hcons _
                  · exact hsingle
                · split
                  · split
                    · simp
                    · exact hrec _
                  · exact hrec rest

/-- C6: within one worker run, ProcessEntry is invoked at most once per
canonical path: the canonical paths of the processed-entry list are
pairwise distinct, for every work queue (duplicated or aliased items
included) and every seen-set. -/
theorem c6_process_once (cx : TravCtx) (fuel : Nat) (items : List WorkItem)
    (seen : List (List Char)) :
    ((worker cx fuel items seen).1.map Entry.canonPath).Nodup :=
  (worker_nodup_aux cx fuel items seen).1

/-- C1 (amended): the worker's depth guard (globstari-traverse.cpp:184)
tests `maxDepth_ > 0`, so a max_depth of 0 does not restrict the
traversal to the root: every non-positive max_depth — 0 included —
disables the cap exactly as −1 does, and for max_depth ≥ 1 no processed
entry's depth exceeds it. -/
theorem c1_depth_cap (cx : TravCtx) (hmd : 1 ≤ cx.maxDepth)
    (ft : FileTree) (pe : Entry → PStatus) (nm : Matcher) (a b : Int)
    (ha : a ≤ 0) (hb : b ≤ 0) (fuel : Nat) (items : List WorkItem)
    (seen : List (List Char)) :
    (∀ e ∈ (worker cx fuel items seen).1, e.depth ≤ cx.maxDepth) ∧
    worker ⟨ft, pe, nm, a⟩ fuel items seen = worker ⟨ft, pe, nm, b⟩ fuel items seen :=
  ⟨worker_depth_le cx hmd fuel items seen,
    worker_md_nonpos ft pe nm a b ha hb fuel items seen⟩

/-- C1 witness: on the tiny `/r` tree, max_depth 1 bounds every processed
entry's depth by 1, and max_depth 0 runs identically to max_depth −1. -/
theorem c1_depth_cap_witness :
    ((1 : Int) ≤ 1 ∧ (0 : Int) ≤ 0 ∧ (-1 : Int) ≤ 0) ∧
    (∀ e ∈ (worker ⟨ftDepth, peContinue, nmDepth, 1⟩ 100
        (initItems "/r".toList) []).1, e.depth ≤ 1) ∧
    worker ⟨ftDepth, peContinue, nmDepth, 0⟩ 100 (initItems "/r".toList) [] =
      worker ⟨ftDepth, peContinue, nmDepth, -1⟩ 100 (initItems "/r".toList) [] := by
  have h := c1_depth_cap ⟨ftDepth, peContinue, nmDepth, 1⟩ (by decide)
    ftDepth peContinue nmDepth 0 (-1) (by decide) (by decide) 100
    (initItems "/r".toList) []
  exact ⟨by decide, h.1, h.2⟩

/-- C1 counterexample to the claim as stated: with max_depth = 0 the
traversal of `/r` still processes the file `/r/x` at depth 1, instead of
only the depth-0 root. -/
theorem c1_counterexample :
    globstariModel ftDepth peContinue "/r".toList ["*".toList] 0 100 =
      .ok [⟨EntryType.File, "/r/x".toList, 1⟩] := rfl

/-- C7: a Stop returned by the ProcessEntry callback halts the traversal
at once — the stopping entry is the last one processed and the worker
ends `stopped`, enqueueing nothing further — and the stop signal never
escapes: whenever the worker ends `stopped`, `globstari` returns the
processed entries normally. -/
theorem c7_stop_terminates (cx : TravCtx) (fuel : Nat) (items : List WorkItem)
    (seen : List (List Char)) (tr : List Entry) (out : Outcome)
    (hw : worker cx fuel items seen = (tr, out)) (e : Entry) (he : e ∈ tr)
    (hs : cx.pe e = .Stop)
    (ft : FileTree) (pe : Entry → PStatus) (bp : List Char)
    (needle : List (List Char)) (md : Int) (f : Nat) (rp : List Char × Matcher)
    (hmk : mkNeedleMatcher ft bp needle = .ok rp)
    (hstop : (worker ⟨ft, pe, rp.2, md⟩ f (initItems rp.1) []).2 = .stopped) :
    (tr.getLast? = some e ∧ out = .stopped) ∧
    globstariModel ft pe bp needle md f =
      .ok (worker ⟨ft, pe, rp.2, md⟩ f (initItems rp.1) []).1 := by
  refine ⟨worker_stop_halts cx fuel items seen tr out hw e he hs, ?_⟩
  rw [globstariModel, hmk]
  dsimp only
  rw [hstop]

/-- C7 witness: with an always-Stop callback on the `/r` tree the single
processed entry is last, the worker ends `stopped`, and `globstari`
returns normally. -/
theorem c7_stop_terminates_witness :
    (([(⟨EntryType.File, "/r/x".toList, 1⟩ : Entry)].getLast? =
        some (⟨EntryType.File, "/r/x".toList, 1⟩ : Entry)) ∧
      Outcome.stopped = Outcome.stopped) ∧
    globstariModel ftDepth peStop "/r".toList ["*".toList] (-1) 5 =
      .ok (worker ⟨ftDepth, peStop, nmDepth, -1⟩ 5 (initItems "/r".toList) []).1 :=
  c7_stop_terminates ⟨ftDepth, peStop, nmDepth, -1⟩ 5 (initItems "/r".toList) []
    [⟨EntryType.File, "/r/x".toList, 1⟩] .stopped (by rfl)
    ⟨EntryType.File, "/r/x".toList, 1⟩ (by decide) rfl
    ftDepth peStop "/r".toList ["*".toList] (-1) 5 ("/r".toList, nmDepth) rfl rfl

/-- C8 (amended): the code has no empty-needle check: the constructor
builds an empty needle matcher without error, and with an empty needle no
entry is ever passed to ProcessEntry, so the traversal yields an empty
trace rather than an InvalidInput error. -/
theorem c8_empty_needle (ft : FileTree) (pe : Entry → PStatus)
    (bp rootPath : List Char) (hc : ft.canonicalize bp = .ok rootPath)
    (md : Int) (fuel : Nat) (items : List WorkItem) (seen : List (List Char)) :
    mkNeedleMatcher ft bp [] = .ok (rootPath, emptyMatcher) ∧
    (worker ⟨ft, pe, emptyMatcher, md⟩ fuel items seen).1 = [] := by
  constructor
  · rw [mkNeedleMatcher, hc]
    rfl
  · exact worker_empty_needle ⟨ft, pe, emptyMatcher, md⟩ rfl fuel items seen

/-- C8 witness: on the `/r` tree the empty needle builds the empty
matcher and processes nothing. -/
theorem c8_empty_needle_witness :
    ftDepth.canonicalize "/r".toList = .ok "/r".toList ∧
    mkNeedleMatcher ftDepth "/r".toList [] = .ok ("/r".toList, emptyMatcher) ∧
    (worker ⟨ftDepth, peContinue, emptyMatcher, -1⟩ 100
      (initItems "/r".toList) []).1 = [] := by
  have h := c8_empty_needle ftDepth peContinue "/r".toList "/r".toList rfl (-1) 100
    (initItems "/r".toList) []
  exact ⟨rfl, h.1, h.2⟩

/-- C8 counterexample to the claim as stated: calling `globstari` on `/r`
with an empty needle list returns `.ok []`, not an InvalidInput error. -/
theorem c8_counterexample :
    globstariModel ftDepth peContinue "/r".toList [] (-1) 100 = .ok [] := rfl

theorem emptyMatcher_containsE_ne_true (p : List Char) :
    emptyMatcher.containsE p ≠ .ok true := by
  intro h
  rw [Matcher.containsE] at h
  split at h
  · exact Except.noConfusion h
  · rename_i r hr
    injection h with h2
    have hri : r = PathCheckResult.Included := of_decide_eq_true h2
    rw [hri] at hr
    exact emptyMatcher_check_ne_included p hr

/-- C9: the ignored-entry test consults only matchers inherited from
strictly above: the root work item carries the empty ignore matcher, the
empty matcher never reports a path ignored, and the matcher loaded from a
directory's own ignore files (delegating to the inherited one) is
attached only to the work items of that directory's children. -/
theorem c9_ignores_from_above (ft : FileTree) (e : Entry) (ig : Matcher)
    (out : List WorkItem) (h : loadDir ft e ig = .ok out)
    (rootPath p : List Char) :
    initItems rootPath = [⟨⟨EntryType.Dir, rootPath, 0⟩, emptyMatcher⟩] ∧
    emptyMatcher.containsE p ≠ .ok true ∧
    ∃ ign,
      loadIgnoreFiles ft (e.canonPath ++ ['/']) (ft.ignoresForDir e.canonPath) ig
          = .ok ign ∧
      ign.delegate = some ig ∧
      ∀ it ∈ out, it.ignores = ign ∧ it.entry.depth = e.depth + 1 :=
  ⟨rfl, emptyMatcher_containsE_ne_true p, loadDir_provenance ft e ig out h⟩

set_option maxHeartbeats 3200000 in
/-- C9 witness: loading `/i` (whose `.eignore` holds `ignored*`) on top of
the empty root matcher succeeds, the root work item shape holds, and the
empty matcher ignores nothing. -/
theorem c9_ignores_from_above_witness :
    (∃ out ign,
      loadDir ftIgn ⟨EntryType.Dir, "/i".toList, 0⟩ emptyMatcher = .ok out ∧
      loadIgnoreFiles ftIgn ("/i".toList ++ ['/'])
          (ftIgn.ignoresForDir "/i".toList) emptyMatcher = .ok ign ∧
      ign.delegate = some emptyMatcher ∧
      ∀ it ∈ out, it.ignores = ign ∧ it.entry.depth = (0 : Int) + 1) ∧
    initItems "/i".toList = [⟨⟨EntryType.Dir, "/i".toList, 0⟩, emptyMatcher⟩] ∧
    emptyMatcher.containsE "/i/file".toList ≠ .ok true := by
  have hok : exceptIsOk (loadDir ftIgn ⟨EntryType.Dir, "/i".toList, 0⟩ emptyMatcher)
      = true := by rfl
  cases hld : loadDir ftIgn ⟨EntryType.Dir, "/i".toList, 0⟩ emptyMatcher with
  | error e => rw [hld] at hok; exact absurd hok (by simp [exceptIsOk])
  | ok out =>
      have h := c9_ignores_from_above ftIgn ⟨EntryType.Dir, "/i".toList, 0⟩
        emptyMatcher out hld "/i".toList "/i/file".toList
      obtain ⟨ign, h1, h2, h3⟩ := h.2.2
      exact ⟨⟨out, ign, rfl, h1, h2, h3⟩, h.1, h.2.1⟩

/-- C5 witness: the range \x7b1..10\x7d accepts the digit string `5`. -/
theorem c5_numeric_range_witness :
    ("5".toList ≠ [] ∧ ∀ c ∈ "5".toList, isDigitC c = true) ∧
    gsContains (mkGlobSet1 (numGlob 1 10)) "5".toList = .ok true :=
  ⟨by decide, (c5_numeric_range 1 10 "5".toList (by decide) (by decide)).trans (by rfl)⟩
